import Mathlib

/-!
Verification of the VITBOT global vector store lifecycle and RAG query
pipeline, shallowly embedded from the Python source
(`backend/app/services/global_vector_store_manager.py`,
`backend/app/services/admin_document_service.py`,
`backend/app/services/rag_handler.py`, `backend/app/routers/chat.py`,
`backend/app/routers/chat_rbac.py`).

Modelling conventions:
* The relational ledger (tables `admin_documents`, `document_chunks`) is a
  pair of in-memory lists; SQL `UPDATE`/`INSERT`/`SELECT ... ORDER BY` are
  translated row by row (ORDER BY via a stable merge sort on the queried
  key).
* The persisted FAISS index is a list of (text, metadata) vectors in
  physical order; `ntotal` is its length.  `Option` distinguishes "files
  absent" from a saved index.
* Chunk metadata is a dynamic JSON dict in the source; the keys actually
  read or written anywhere in the repository are modelled as optional
  fields of one record type.
* Embedding computation is external and deterministic (spec §6); vectors
  are identified with their source text, so an index entry is the
  (text, metadata) pair FAISS stores alongside the vector.
* I/O failures of the vector-index adapter (FAISS append / save) are
  injected through explicit `Bool` flags where a claim is about failure
  behaviour; ledger (database) statements are modelled on their success
  path, matching the spec's transactional-ledger assumption.
-/

namespace VitBot

/-- Chunk/vector metadata: the union of all JSON metadata keys the
repository ever writes (`enhanced_pdf_extractor.py`,
`language_aware_text_splitter.py`, `global_vector_store_manager.py`) or
reads (`rag_handler.py`).  A missing key is `none`. -/
structure Meta where
  source : Option String := none
  page : Option Nat := none
  total_pages : Option Nat := none
  chunk_index : Option Nat := none
  chunks_on_page : Option Nat := none
  document_id : Option Nat := none
  global_chunk_id : Option String := none
  filename : Option String := none
  document : Option String := none
  temporary : Option Bool := none
deriving DecidableEq

/-- The empty metadata dict `{}` (falsy in Python). -/
def emptyMeta : Meta := {}

/-- One vector of a FAISS store: the text and metadata stored with it. -/
structure GEntry where
  text : String
  metadata : Meta
deriving DecidableEq

/-- A row of the `document_chunks` table. -/
structure ChunkRow where
  id : Nat
  document_id : Nat
  chunk_index : Nat
  chunk_text : String
  metadata : Meta
  vector_index : Nat
  is_active : Bool
deriving DecidableEq

/-- A row of the `admin_documents` table (fields the core reads). -/
structure AdminDocument where
  id : Nat
  filename : String
  original_filename : String
  document_hash : String
  processing_status : String
  is_active : Bool
deriving DecidableEq

/-- The relational ledger plus the SERIAL id counters. -/
structure DB where
  docs : List AdminDocument
  chunks : List ChunkRow
  nextDocId : Nat
  nextChunkId : Nat
deriving DecidableEq

/-- Ledger plus the persisted global index
(`vector_stores/admin_documents/global_knowledge_base`); `none` means the
index files are absent. -/
structure Sys where
  db : DB
  disk : Option (List GEntry)
deriving DecidableEq

def DB.empty : DB := { docs := [], chunks := [], nextDocId := 1, nextChunkId := 1 }

/-- The dummy vector `_load_or_create_global_store` seeds a brand-new
store with (`global_vector_store_manager.py:53-54`). -/
def initPlaceholder : GEntry :=
  { text := "Initializing global vector store"
    metadata := { document := some "system", temporary := some true } }

/-- The dummy vector `_rebuild_global_store` writes when no chunk is
active (`global_vector_store_manager.py:173-174`). -/
def emptyPlaceholder : GEntry :=
  { text := "Empty global vector store"
    metadata := { document := some "system", temporary := some true } }

/-- An entry carrying the system/temporary placeholder tag. -/
def isPlaceholder (e : GEntry) : Bool :=
  e.metadata.document == some "system" && e.metadata.temporary == some true

/-- Vectors of a persisted store that are not the placeholder; `none`
(files absent) holds no vectors. -/
def realVectorCount : Option (List GEntry) → Nat
  | none => 0
  | some es => (es.filter (fun e => !isPlaceholder e)).length

/-- Text sanitisation in `GlobalVectorStoreService.add_document_chunks`
(lines 607-610): strip null bytes, then drop control characters other
than tab, newline, carriage return. -/
def cleanChunkText (s : String) : String :=
  let s1 := (s.data.filter (fun c => !(c == '\x00'))).asString
  (s1.data.filter
    (fun c => decide (32 ≤ c.toNat) || c == '\t' || c == '\n' || c == '\r')).asString

/-- `admin_documents` lookup used by the chunk/doc join conditions:
is there an active document row with this id. -/
def docActive (docs : List AdminDocument) (did : Nat) : Bool :=
  docs.any (fun d => d.id == did && d.is_active)

/-- The chunk rows that are active and belong to an active document
(the `dc.is_active = true AND ad.is_active = true` join condition),
in ledger order. -/
def activeChunksOf (db : DB) : List ChunkRow :=
  db.chunks.filter (fun c => c.is_active && docActive db.docs c.document_id)

/-- The SQL inner join of `document_chunks` with `admin_documents`
(`get_active_document_chunks`, all-documents variant), before ORDER BY:
one row per (chunk, matching active document) pair. -/
def joinActive (db : DB) : List (ChunkRow × AdminDocument) :=
  db.chunks.flatMap (fun c =>
    if c.is_active then
      (db.docs.filter (fun d => d.id == c.document_id && d.is_active)).map
        (fun d => (c, d))
    else [])

/-- The `ORDER BY dc.document_id, dc.vector_index` sort key comparison. -/
def LeDocVec (a b : ChunkRow × AdminDocument) : Prop :=
  a.1.document_id < b.1.document_id ∨
    (a.1.document_id = b.1.document_id ∧ a.1.vector_index ≤ b.1.vector_index)

instance : DecidableRel LeDocVec := fun a b => by
  unfold LeDocVec
  exact inferInstance

/-- `ORDER BY vector_index` key comparison on chunk rows. -/
def LeVec (a b : ChunkRow) : Prop :=
  a.vector_index ≤ b.vector_index

instance : DecidableRel LeVec := fun a b => by
  unfold LeVec
  exact inferInstance

/-- `GlobalVectorStoreService.get_active_document_chunks()` (no document
filter): active chunks joined to their active documents,
`ORDER BY dc.document_id, dc.vector_index` (lines 767-773). -/
def getActiveDocumentChunks (db : DB) : List (ChunkRow × AdminDocument) :=
  (joinActive db).insertionSort LeDocVec

/-- The body of the `for i, chunk in enumerate(chunks)` loop of
`_update_chunk_vector_indices`, restricted to one table row `c`:
the i-th iteration runs `UPDATE document_chunks SET vector_index = i
WHERE id = chunk.id`. -/
def assignPositions (rows : List (ChunkRow × AdminDocument)) (i : Nat) (c : ChunkRow) : ChunkRow :=
  match rows with
  | [] => c
  | p :: rest =>
      assignPositions rest (i + 1)
        (if p.1.id == c.id then { c with vector_index := i } else c)

/-- `_update_chunk_vector_indices(chunks)`: write each surviving chunk's
new ordinal back to the ledger (lines 221-236). -/
def updateChunkVectorIndices (db : DB) (rows : List (ChunkRow × AdminDocument)) : DB :=
  { db with chunks := db.chunks.map (assignPositions rows 0) }

/-- The metadata `_rebuild_global_store` attaches to a rebuilt vector
(lines 185-201): the stored chunk metadata enriched with document_id,
chunk_index, global_chunk_id and the joined document's filename. -/
def rebuildEntry (p : ChunkRow × AdminDocument) : GEntry :=
  { text := p.1.chunk_text
    metadata :=
      { p.1.metadata with
          document_id := some p.1.document_id
          chunk_index := some p.1.chunk_index
          global_chunk_id :=
            some ("doc_" ++ Nat.repr p.1.document_id ++ "_chunk_" ++ Nat.repr p.1.chunk_index)
          filename := some p.2.filename } }

/-- `GlobalVectorStoreManager._rebuild_global_store` (lines 161-219):
re-derive the whole index from the active chunk set; on an empty active
set persist a placeholder-only store.  `saveOk` injects a FAISS
build/save failure (the `except` path returns `False` with nothing
persisted and no ledger write). -/
def rebuildGlobalStore (sys : Sys) (saveOk : Bool) : Bool × Sys :=
  if (getActiveDocumentChunks sys.db).isEmpty then
    if saveOk then (true, { sys with disk := some [emptyPlaceholder] }) else (false, sys)
  else
    if saveOk then
      (true,
       { db := updateChunkVectorIndices sys.db (getActiveDocumentChunks sys.db)
         disk := some ((getActiveDocumentChunks sys.db).map rebuildEntry) })
    else (false, sys)

/-- `GlobalVectorStoreService.get_global_chunk_count` (lines 786-800):
`COUNT(*)` over the active-chunk/active-document join. -/
def getGlobalChunkCount (db : DB) : Nat :=
  (joinActive db).length

/-- Result dict of `GlobalVectorStoreService.remove_document_from_global_store`. -/
structure RemovalInfo where
  removed_chunks : Nat
  vector_indices : List Nat
deriving DecidableEq

/-- `GlobalVectorStoreService.remove_document_from_global_store(document_id)`
(lines 633-700): select the document's active chunks (ORDER BY
vector_index); if none, change nothing; otherwise mark every chunk row of the
document and its `global_vector_store` record inactive (single commit). -/
def serviceRemoveDocument (db : DB) (did : Nat) : RemovalInfo × DB :=
  if ((db.chunks.filter (fun c => c.document_id == did && c.is_active)).insertionSort LeVec).isEmpty then
    ({ removed_chunks := 0, vector_indices := [] }, db)
  else
    ({ removed_chunks :=
         ((db.chunks.filter (fun c => c.document_id == did && c.is_active)).insertionSort LeVec).length
       vector_indices :=
         ((db.chunks.filter (fun c => c.document_id == did && c.is_active)).insertionSort LeVec).map
           (·.vector_index) },
     { db with
        chunks := db.chunks.map
          (fun c => if c.document_id == did then { c with is_active := false } else c) })

/-- `GlobalVectorStoreManager.remove_document_from_global_store(document_id)`
(lines 135-159): deactivate in the ledger, then full rebuild; a finding of
0 chunks is a no-op success. -/
def managerRemoveDocument (sys : Sys) (did : Nat) (saveOk : Bool) : Bool × Sys :=
  if (serviceRemoveDocument sys.db did).1.removed_chunks == 0 then
    (true, { sys with db := (serviceRemoveDocument sys.db did).2 })
  else rebuildGlobalStore { sys with db := (serviceRemoveDocument sys.db did).2 } saveOk

/-- `AdminDocumentService.delete_document(document_id, soft_delete=True)`
(lines 308-354, soft branch): commit `is_active = false` on the document
row, then delegate to the manager's removal; its failure is logged but
the call still returns `True`. -/
def deleteDocumentSoft (sys : Sys) (did : Nat) (saveOk : Bool) : Bool × Sys :=
  let db1 :=
    { sys.db with
        docs := sys.db.docs.map
          (fun d => if d.id == did then { d with is_active := false } else d) }
  (true, (managerRemoveDocument { sys with db := db1 } did saveOk).2)

/-- One chunk handed to `add_document_to_global_store`: the splitter's
(text, metadata) dict. -/
structure ChunkIn where
  text : String
  metadata : Meta
deriving DecidableEq

/-- `_load_or_create_global_store` (lines 30-65): load the persisted
store, or create a placeholder-seeded one and save it. Returns the
loaded store and the resulting on-disk state. -/
def loadOrCreateGlobalStore (disk : Option (List GEntry)) :
    List GEntry × Option (List GEntry) :=
  match disk with
  | some es => (es, some es)
  | none => ([initPlaceholder], some [initPlaceholder])

/-- The metadata enrichment in `add_document_to_global_store`
(lines 87-92). -/
def enrichMeta (did i : Nat) (m : Meta) : Meta :=
  { m with
      document_id := some did
      chunk_index := some i
      global_chunk_id := some ("doc_" ++ Nat.repr did ++ "_chunk_" ++ Nat.repr i) }

/-- `GlobalVectorStoreService.add_document_chunks(document_id, chunks,
start_vector_index)` (lines 593-626): insert one ledger row per chunk
with sanitised text, `vector_index = start + i`, `is_active = true`. -/
def addDocumentChunks (db : DB) (did : Nat) (enriched : List ChunkIn) (start : Nat) : DB :=
  { db with
      chunks := db.chunks ++
        enriched.mapIdx (fun i cd =>
          { id := db.nextChunkId + i
            document_id := did
            chunk_index := i
            chunk_text := cleanChunkText cd.text
            metadata := cd.metadata
            vector_index := start + i
            is_active := true })
      nextChunkId := db.nextChunkId + enriched.length }

/-- `GlobalVectorStoreManager.add_document_to_global_store(document_id,
chunks_with_metadata)` (lines 71-133): load-or-create, record the current
vector count, append the enriched chunks, save, then insert the ledger
rows.  `appendOk`/`saveOk` inject FAISS `add_texts`/`save_local` failures
(the `except` path returns `False` before any ledger insert). -/
def addDocumentToGlobalStore (sys : Sys) (did : Nat) (chunksIn : List ChunkIn)
    (appendOk saveOk : Bool) : Bool × Sys :=
  if chunksIn.isEmpty then (false, sys)
  else
    if !appendOk then (false, { sys with disk := (loadOrCreateGlobalStore sys.disk).2 })
    else if !saveOk then (false, { sys with disk := (loadOrCreateGlobalStore sys.disk).2 })
    else
      (true,
       { db :=
           addDocumentChunks sys.db did
             (chunksIn.mapIdx (fun i cd =>
               { text := cd.text, metadata := enrichMeta did i cd.metadata : ChunkIn }))
             (loadOrCreateGlobalStore sys.disk).1.length
         disk :=
           some ((loadOrCreateGlobalStore sys.disk).1 ++
             (chunksIn.mapIdx (fun i cd =>
               { text := cd.text, metadata := enrichMeta did i cd.metadata : ChunkIn })).map
               (fun cd => { text := cd.text, metadata := cd.metadata : GEntry })) })

/-- `AdminDocumentService.document_exists_by_hash` (lines 36-48): is
there an active document row with this content hash. -/
def documentExistsByHash (db : DB) (h : String) : Bool :=
  db.docs.any (fun d => d.document_hash == h && d.is_active)

/-- `AdminDocumentService.get_inactive_document_by_hash` (lines 53-67):
latest inactive document row with this hash (ORDER BY updated_at DESC
LIMIT 1, modelled as the first ledger match). -/
def getInactiveDocumentByHash (db : DB) (h : String) : Option AdminDocument :=
  db.docs.find? (fun d => d.document_hash == h && !d.is_active)

/-- `AdminDocumentService.reactivate_document_complete(document_id)`
(lines 386-406).  The body calls
`GlobalVectorStoreManager.reactivate_document_in_global_store`, a method
that is defined nowhere in the repository, so the attribute access raises
`AttributeError`; the surrounding `except` swallows it and returns
`False`.  No ledger or index state changes.  (The chunk-side helper
`GlobalVectorStoreService.reactivate_document_chunks` exists but is never
called.) -/
def reactivateDocumentComplete (sys : Sys) (_did : Nat) : Bool × Sys :=
  (false, sys)

/-- The error `create_admin_document` raises on an active duplicate
(`ValueError("Document with identical content already exists")`). -/
inductive CreateDocError
  | duplicateContent
deriving DecidableEq

/-- `AdminDocumentService.create_admin_document` (lines 72-168), with the
SHA-256 of the uploaded bytes supplied as `document_hash` (the hash
computation reads the file and is external to the core).  Active
duplicate → raise; inactive duplicate → reactivate the existing row
(same id) and attempt the vector-side reactivation, whose failure is
only logged; otherwise insert a fresh `pending` row. -/
def createAdminDocument (sys : Sys) (filename original_filename document_hash : String) :
    Except CreateDocError AdminDocument × Sys :=
  if documentExistsByHash sys.db document_hash then
    (.error .duplicateContent, sys)
  else
    match getInactiveDocumentByHash sys.db document_hash with
    | some inactiveDoc =>
        let updated : AdminDocument :=
          { inactiveDoc with
              filename := filename
              original_filename := original_filename
              processing_status := "pending"
              is_active := true }
        let db1 :=
          { sys.db with
              docs := sys.db.docs.map
                (fun d => if d.id == inactiveDoc.id then updated else d) }
        (.ok updated, (reactivateDocumentComplete { sys with db := db1 } inactiveDoc.id).2)
    | none =>
        let row : AdminDocument :=
          { id := sys.db.nextDocId
            filename := filename
            original_filename := original_filename
            document_hash := document_hash
            processing_status := "pending"
            is_active := true }
        (.ok row,
         { sys with
            db := { sys.db with
                      docs := sys.db.docs ++ [row]
                      nextDocId := sys.db.nextDocId + 1 } })

/-! Query pipeline (`rag_handler.py`, `chat.py`, `chat_rbac.py`). -/

/-- The dynamic value of `metadata.get('page', 'Unknown Page')`: every
producer in the repository stores an integer page, the default is the
literal string. -/
inductive PageVal
  | num (n : Nat)
  | unknownPage
deriving DecidableEq

/-- How a page value prints inside the dedup f-string
`f"{document}-{page}"`. -/
def PageVal.str : PageVal → String
  | .num n => Nat.repr n
  | .unknownPage => "Unknown Page"

/-- One `source_info` dict built in `get_user_query_response`
(lines 226-230). -/
structure SourceInfo where
  document : String
  page : PageVal
  chunk_index : Nat
deriving DecidableEq

/-- `source_info` from a retrieved document's metadata (defaults
`'Unknown Document'`, `'Unknown Page'`, `1`). -/
def sourceInfoOf (m : Meta) : SourceInfo :=
  { document := m.source.getD "Unknown Document"
    page := match m.page with | some p => .num p | none => .unknownPage
    chunk_index := m.chunk_index.getD 1 }

/-- The dedup key `f"{source_info['document']}-{source_info['page']}"`
(line 232). -/
def sourceKey (s : SourceInfo) : String :=
  s.document ++ "-" ++ s.page.str

/-- The source-extraction loop of `get_user_query_response`
(lines 221-235): walk the retrieved documents, skip entries with empty
metadata, and append a `source_info` whenever its key has not been seen. -/
def extractSourcesAux : List GEntry → List SourceInfo → List String →
    List SourceInfo
  | [], sources, _ => sources
  | d :: rest, sources, seen =>
      if d.metadata == emptyMeta then extractSourcesAux rest sources seen
      else
        let info := sourceInfoOf d.metadata
        let key := sourceKey info
        if seen.contains key then extractSourcesAux rest sources seen
        else extractSourcesAux rest (sources ++ [info]) (seen ++ [key])

/-- Citation extraction on a retrieved result list. -/
def extractSources (docs : List GEntry) : List SourceInfo :=
  extractSourcesAux docs [] []

/-- The (source filename, page) pair of a citation, the unit the spec
says citations are deduplicated by. -/
def citePair (s : SourceInfo) : String × PageVal :=
  (s.document, s.page)

/-- Written from the spec sentence "deduplicate by (filename, page)
pair, preserving first-seen order": keep each citation whose
(document, page) pair has not occurred before.  Compared against the
extraction loop above, which dedups via the concatenated string key. -/
def dedupByPairAux : List SourceInfo → List SourceInfo → List (String × PageVal) →
    List SourceInfo
  | [], sources, _ => sources
  | s :: rest, sources, seen =>
      if seen.contains (citePair s) then dedupByPairAux rest sources seen
      else dedupByPairAux rest (sources ++ [s]) (seen ++ [citePair s])

/-- Spec-side deduplication of a citation list by (filename, page). -/
def dedupByPair (l : List SourceInfo) : List SourceInfo :=
  dedupByPairAux l [] []

/-- `load_global_vector_stores` (`rag_handler.py:14-51`), cache miss
path: absent files or a zero-vector store yield `None`, otherwise the
persisted store (placeholder included — `total_vectors` is the raw
`ntotal`). -/
def loadGlobalVectorStores (disk : Option (List GEntry)) : Option (List GEntry) :=
  match disk with
  | none => none
  | some es => if es.length == 0 then none else some es

/-- A cached chat response (`ChatCache`), keyed by (user, query,
has_pdf). -/
structure CachedResp where
  response : String
  source : String
deriving DecidableEq

/-- Outcome of a `/chat` request: an HTTP error, or a JSON reply with
its `source` tag and `cached` flag. -/
inductive ChatResult
  | httpError (status : Nat)
  | reply (resp : String) (src : String) (cached : Bool)
deriving DecidableEq

/-- Token role (`current_user.role`). -/
inductive Role
  | admin
  | user
  | other
deriving DecidableEq

/-- `chat.py:chat_with_rag` (lines 26-113), response dispatch: the cache
lookup, the `has_pdf` branch, and the fallback to the general LLM when
no store loads.  `cached` is the `ChatCache` lookup result, `store` the
result of `load_vectorstore_for_user`, `general`/`rag` the external LLM
calls.  The second component records whether `load_vectorstore_for_user`
was invoked (a vector index load/search was attempted). -/
def chatWithRag (cached : Option CachedResp) (hasPdf : Bool) (query : String)
    (general : String → String) (store : Option (List GEntry))
    (rag : List GEntry → String × List SourceInfo) : ChatResult × Bool :=
  match cached with
  | some c => (.reply c.response c.source true, false)
  | none =>
      if !hasPdf then (.reply (general query) "general" false, false)
      else
        match store with
        | none => (.reply (general query) "general" false, true)
        | some vs => (.reply (rag vs).1 "rag" false, true)

/-- `chat_rbac.py:chat_with_rag` (lines 83-211), the router mounted in
`main.py`: role gate first (regular users may not issue non-PDF queries,
unknown roles are rejected), then the same cache/general/RAG dispatch,
with a 404 for regular users when no store loads. -/
def chatWithRagRbac (role : Role) (cached : Option CachedResp) (hasPdf : Bool)
    (query : String) (general : String → String) (store : Option (List GEntry))
    (rag : List GEntry → String × List SourceInfo) : ChatResult × Bool :=
  if role == .user && !hasPdf then (.httpError 403, false)
  else if role != .admin && role != .user then (.httpError 403, false)
  else
    match cached with
    | some c => (.reply c.response c.source true, false)
    | none =>
        if !hasPdf then
          if role != .admin then (.httpError 403, false)
          else (.reply (general query) "general" false, false)
        else
          match store with
          | none =>
              if role == .admin then (.reply (general query) "general" false, true)
              else (.httpError 404, true)
          | some vs => (.reply (rag vs).1 "rag" false, true)

/-! Derived notions used to state and prove the claims. -/

/-- "Active chunks ordered by vector position". -/
def sortByPos (l : List ChunkRow) : List ChunkRow :=
  l.insertionSort LeVec

/-- The `(document_id, chunk_index)` lexicographic comparison the spec
describes the rebuild ordering by. -/
def LeDocChunk (a b : ChunkRow × AdminDocument) : Prop :=
  a.1.document_id < b.1.document_id ∨
    (a.1.document_id = b.1.document_id ∧ a.1.chunk_index ≤ b.1.chunk_index)

instance : DecidableRel LeDocChunk := fun a b => by
  unfold LeDocChunk
  exact inferInstance

/-- Strict `(document_id, chunk_index)` lexicographic order. -/
def LtDocChunk (a b : ChunkRow × AdminDocument) : Prop :=
  a.1.document_id < b.1.document_id ∨
    (a.1.document_id = b.1.document_id ∧ a.1.chunk_index < b.1.chunk_index)

/-- Strict `(document_id, vector_index)` lexicographic order. -/
def LtDocVec (a b : ChunkRow × AdminDocument) : Prop :=
  a.1.document_id < b.1.document_id ∨
    (a.1.document_id = b.1.document_id ∧ a.1.vector_index < b.1.vector_index)

/-- Strict order on chunk rows by vector position. -/
def LtVec (a b : ChunkRow) : Prop :=
  a.vector_index < b.vector_index

instance : IsTotal (ChunkRow × AdminDocument) LeDocVec :=
  ⟨by intro a b; unfold LeDocVec; omega⟩

instance : IsTrans (ChunkRow × AdminDocument) LeDocVec :=
  ⟨by intro a b c; unfold LeDocVec; omega⟩

instance : IsTotal (ChunkRow × AdminDocument) LeDocChunk :=
  ⟨by intro a b; unfold LeDocChunk; omega⟩

instance : IsTrans (ChunkRow × AdminDocument) LeDocChunk :=
  ⟨by intro a b c; unfold LeDocChunk; omega⟩

instance : IsTotal ChunkRow LeVec :=
  ⟨by intro a b; unfold LeVec; omega⟩

instance : IsTrans ChunkRow LeVec :=
  ⟨by intro a b c; unfold LeVec; omega⟩

instance : IsAntisymm (ChunkRow × AdminDocument) LtDocVec :=
  ⟨by intro a b h1 h2; exfalso; unfold LtDocVec at h1 h2; omega⟩

instance : IsAntisymm (ChunkRow × AdminDocument) LtDocChunk :=
  ⟨by intro a b h1 h2; exfalso; unfold LtDocChunk at h1 h2; omega⟩

instance : IsAntisymm ChunkRow LtVec :=
  ⟨by intro a b h1 h2; exfalso; unfold LtVec at h1 h2; omega⟩

/-- The identifying payload of a chunk row (everything the rebuild writes
into its vector except the position bookkeeping). -/
def chunkData (c : ChunkRow) : String × Nat × Nat :=
  (c.chunk_text, c.document_id, c.chunk_index)

/-- The identifying payload of an index vector. -/
def entryData (e : GEntry) : String × Nat × Nat :=
  (e.text, e.metadata.document_id.getD 0, e.metadata.chunk_index.getD 0)

/-- The central ledger/index consistency relation: the active-chunk count
(`get_global_chunk_count`) equals the persisted index's vector count
excluding the placeholder. -/
def consistentSys (sys : Sys) : Prop :=
  getGlobalChunkCount sys.db = realVectorCount sys.disk

/-- Ledger well-formedness, restricted to the rows a rebuild reads.
Primary keys (SERIAL columns) are unique table-wide, but the ordinal and
tagging conditions are required only of the active join (`activeChunksOf`):
a soft-deleted document whose file is re-uploaded gets fresh chunk rows
inserted while its stale rows stay behind inactive, so the whole table may
hold duplicate (document_id, chunk_index) pairs — only the rows of active
chunks of active documents, the ones every query and rebuild actually
reads, keep distinct ordinals with vector positions increasing in the
ordinal and stay free of the placeholder's system/temporary metadata
tag. -/
structure WFdb (db : DB) : Prop where
  chunkIdsNodup : (db.chunks.map (·.id)).Nodup
  docIdsNodup : (db.docs.map (·.id)).Nodup
  docChunkNodup : ((activeChunksOf db).map (fun c => (c.document_id, c.chunk_index))).Nodup
  monoVec : ∀ c1 ∈ activeChunksOf db, ∀ c2 ∈ activeChunksOf db,
    c1.document_id = c2.document_id → c1.chunk_index < c2.chunk_index →
      c1.vector_index < c2.vector_index
  noSystemTag : ∀ c ∈ db.chunks, c.is_active = true →
    ¬(c.metadata.document = some "system" ∧ c.metadata.temporary = some true)

/-- `joinActive` rewritten through the unique active document per id
(valid when document ids are unique, see `joinActive_eq_unique`). -/
def joinActiveUnique (db : DB) : List (ChunkRow × AdminDocument) :=
  db.chunks.filterMap (fun c =>
    if c.is_active then
      (db.docs.find? (fun d => d.id == c.document_id && d.is_active)).map (fun d => (c, d))
    else none)

/-- Reassign a chunk row's vector position. -/
def setVi (i : Nat) (c : ChunkRow) : ChunkRow :=
  { c with vector_index := i }

/-- The resolved `source_info` of every retrieved document that carries
(non-empty) metadata, in retrieval order — the input of the
deduplication step. -/
def retrievedInfos (docs : List GEntry) : List SourceInfo :=
  (docs.filter (fun d => !(d.metadata == emptyMeta))).map (fun d => sourceInfoOf d.metadata)

/-- The dedup key as a function of the (document, page) pair. -/
def pairKey (p : String × PageVal) : String :=
  p.1 ++ "-" ++ p.2.str

/-- Decimal re-interpretation of a digit string (left fold). -/
def decStep (v : Nat) (c : Char) : Nat :=
  10 * v + (c.toNat - 48)

/-! A concrete end-to-end scenario: upload a 2-chunk document, soft-delete
it, re-upload the byte-identical file.  Used as the failing input of the
reactivation bug and as witness data. -/

def demoMeta1 : Meta := { source := some "f.pdf", page := some 1, chunk_index := some 1 }

def demoMeta2 : Meta := { source := some "f.pdf", page := some 2, chunk_index := some 1 }

/-- Fresh system: no ledger rows, no index files. -/
def demoSys0 : Sys := { db := DB.empty, disk := none }

/-- After `create_admin_document` of a new file with hash "h". -/
def demoSys1 : Sys := (createAdminDocument demoSys0 "f.pdf" "f.pdf" "h").2

/-- After the background task adds its 2 chunks to the global store. -/
def demoSys2 : Sys :=
  (addDocumentToGlobalStore demoSys1 1 [⟨"alpha", demoMeta1⟩, ⟨"beta", demoMeta2⟩] true true).2

/-- After `delete_document(1, soft_delete=True)`. -/
def demoSys3 : Sys := (deleteDocumentSoft demoSys2 1 true).2

/-- The re-upload of the identical file (same hash "h"). -/
def demoStep4 : Except CreateDocError AdminDocument × Sys :=
  createAdminDocument demoSys3 "f.pdf" "f.pdf" "h"

/-- After the re-upload, the queued `process_admin_pdf_task` runs again
and re-inserts the document's 2 chunks: the stale inactive rows of the
first upload persist alongside the fresh active ones, duplicating their
(document_id, chunk_index) pairs table-wide — only the active join stays
well-formed. -/
def staleDupSys : Sys :=
  (addDocumentToGlobalStore demoStep4.2 1
    [⟨"alpha", demoMeta1⟩, ⟨"beta", demoMeta2⟩] true true).2

/-- The state a rebuild over an empty active set persists: the index
holds exactly the placeholder vector. -/
def placeholderOnlySys : Sys := (rebuildGlobalStore { db := DB.empty, disk := none } true).2

/-! ### General helper lemmas -/

theorem insertionSort_eq_nil_iff {α : Type} (r : α → α → Prop) [DecidableRel r]
    (l : List α) : l.insertionSort r = [] ↔ l = [] := by
  constructor
  · intro h
    have hp := List.perm_insertionSort r l
    rw [h] at hp
    exact (hp.symm.eq_nil)
  · intro h
    subst h
    rfl

theorem assignPositions_shape (rows : List (ChunkRow × AdminDocument)) (i : Nat)
    (c : ChunkRow) : ∃ v, assignPositions rows i c = setVi v c := by
  induction rows generalizing i c with
  | nil => exact ⟨c.vector_index, by cases c; rfl⟩
  | cons p rest ih =>
      simp only [assignPositions]
      by_cases h : (p.1.id == c.id) = true
      · rw [if_pos h]
        obtain ⟨v, hv⟩ := ih (i + 1) (setVi i c)
        exact ⟨v, hv⟩
      · rw [if_neg h]
        exact ih (i + 1) c

theorem assignPositions_is_active (rows : List (ChunkRow × AdminDocument)) (i : Nat)
    (c : ChunkRow) : (assignPositions rows i c).is_active = c.is_active := by
  obtain ⟨v, hv⟩ := assignPositions_shape rows i c
  rw [hv]; rfl

theorem assignPositions_document_id (rows : List (ChunkRow × AdminDocument)) (i : Nat)
    (c : ChunkRow) : (assignPositions rows i c).document_id = c.document_id := by
  obtain ⟨v, hv⟩ := assignPositions_shape rows i c
  rw [hv]; rfl

theorem assignPositions_id (rows : List (ChunkRow × AdminDocument)) (i : Nat)
    (c : ChunkRow) : (assignPositions rows i c).id = c.id := by
  obtain ⟨v, hv⟩ := assignPositions_shape rows i c
  rw [hv]; rfl

theorem assignPositions_chunk_index (rows : List (ChunkRow × AdminDocument)) (i : Nat)
    (c : ChunkRow) : (assignPositions rows i c).chunk_index = c.chunk_index := by
  obtain ⟨v, hv⟩ := assignPositions_shape rows i c
  rw [hv]; rfl

theorem assignPositions_chunk_text (rows : List (ChunkRow × AdminDocument)) (i : Nat)
    (c : ChunkRow) : (assignPositions rows i c).chunk_text = c.chunk_text := by
  obtain ⟨v, hv⟩ := assignPositions_shape rows i c
  rw [hv]; rfl

theorem assignPositions_metadata (rows : List (ChunkRow × AdminDocument)) (i : Nat)
    (c : ChunkRow) : (assignPositions rows i c).metadata = c.metadata := by
  obtain ⟨v, hv⟩ := assignPositions_shape rows i c
  rw [hv]; rfl

theorem rebuild_docs_unchanged (sys : Sys) (saveOk : Bool) :
    (rebuildGlobalStore sys saveOk).2.db.docs = sys.db.docs := by
  unfold rebuildGlobalStore
  split <;> split <;> rfl

theorem rebuild_true_succeeds (sys : Sys) :
    (rebuildGlobalStore sys true).1 = true := by
  unfold rebuildGlobalStore
  split <;> rfl

theorem rebuild_false_noop (sys : Sys) :
    rebuildGlobalStore sys false = (false, sys) := by
  unfold rebuildGlobalStore
  split <;> rfl

/-- Failure mode of the rebuild on the ledger side: the chunk table of the
result never re-activates anything — a document whose chunks were all
inactive keeps them inactive. -/
theorem rebuild_preserves_doc_inactive (sys : Sys) (saveOk : Bool) (did : Nat)
    (h : sys.db.chunks.filter (fun c => c.document_id == did && c.is_active) = []) :
    (rebuildGlobalStore sys saveOk).2.db.chunks.filter
      (fun c => c.document_id == did && c.is_active) = [] := by
  unfold rebuildGlobalStore
  split
  · split <;> simpa using h
  · split
    · simp only [updateChunkVectorIndices]
      rw [List.filter_eq_nil_iff]
      intro a ha
      obtain ⟨c, hc, hac⟩ := List.mem_map.mp ha
      have h1 := assignPositions_document_id (getActiveDocumentChunks sys.db) 0 c
      have h2 := assignPositions_is_active (getActiveDocumentChunks sys.db) 0 c
      have hcf := List.filter_eq_nil_iff.mp h c hc
      rw [← hac]
      simpa [h1, h2] using hcf
    · simpa using h

/-- After the service-level removal, no chunk of the document is active. -/
theorem serviceRemove_deactivates (db : DB) (did : Nat) :
    (serviceRemoveDocument db did).2.chunks.filter
      (fun c => c.document_id == did && c.is_active) = [] := by
  unfold serviceRemoveDocument
  split
  · next hE =>
      have hnil : (db.chunks.filter (fun c => c.document_id == did && c.is_active)).insertionSort LeVec = [] := by
        rwa [List.isEmpty_iff] at hE
      exact (insertionSort_eq_nil_iff LeVec _).mp hnil
  · rw [List.filter_eq_nil_iff]
    intro a ha
    obtain ⟨c, _hc, hac⟩ := List.mem_map.mp ha
    subst hac
    by_cases hd : (c.document_id == did) = true
    · simp [hd]
    · simp [hd]

theorem serviceRemove_docs_unchanged (db : DB) (did : Nat) :
    (serviceRemoveDocument db did).2.docs = db.docs := by
  unfold serviceRemoveDocument
  split <;> rfl

theorem managerRemove_deactivates (sys : Sys) (did : Nat) (saveOk : Bool) :
    (managerRemoveDocument sys did saveOk).2.db.chunks.filter
      (fun c => c.document_id == did && c.is_active) = [] := by
  unfold managerRemoveDocument
  split
  · exact serviceRemove_deactivates sys.db did
  · exact rebuild_preserves_doc_inactive _ saveOk did (serviceRemove_deactivates sys.db did)

/-- The service removal on a ledger where the document is already fully
inactive is the identity and reports `removed_chunks = 0`. -/
theorem serviceRemove_of_inactive (db : DB) (did : Nat)
    (h : db.chunks.filter (fun c => c.document_id == did && c.is_active) = []) :
    serviceRemoveDocument db did = ({ removed_chunks := 0, vector_indices := [] }, db) := by
  unfold serviceRemoveDocument
  rw [h]
  rfl

/-- The manager-level removal on such a ledger is a no-op success:
the no-chunks branch does not rebuild and changes nothing. -/
theorem managerRemove_noop_of_inactive (sys : Sys) (did : Nat) (saveOk : Bool)
    (h : sys.db.chunks.filter (fun c => c.document_id == did && c.is_active) = []) :
    managerRemoveDocument sys did saveOk = (true, sys) := by
  unfold managerRemoveDocument
  rw [serviceRemove_of_inactive sys.db did h]
  rfl

/-! ### C5 — idempotence of remove_document -/

/-- C5: `remove_document` is idempotent: both calls report success, the
second finds 0 active chunks to newly deactivate, performs no rebuild and
leaves the whole state — ledger and persisted index — exactly as the
first call left it. -/
theorem remove_document_idempotent (sys : Sys) (did : Nat) :
    (managerRemoveDocument sys did true).1 = true ∧
    (serviceRemoveDocument (managerRemoveDocument sys did true).2.db did).1.removed_chunks = 0 ∧
    managerRemoveDocument (managerRemoveDocument sys did true).2 did true =
      (true, (managerRemoveDocument sys did true).2) := by
  have hfilter := managerRemove_deactivates sys did true
  refine ⟨?_, ?_, ?_⟩
  · unfold managerRemoveDocument
    split
    · rfl
    · exact rebuild_true_succeeds _
  · rw [serviceRemove_of_inactive _ did hfilter]
  · exact managerRemove_noop_of_inactive _ did true hfilter

/-! ### C3 — reactivation on re-upload (code bug) -/

/-- C3: upload → soft delete → re-upload of the byte-identical file.  The
document row itself is reactivated under its original id and no duplicate
row is inserted, as claimed; but because
`GlobalVectorStoreManager.reactivate_document_in_global_store` does not
exist anywhere in the repository, the `AttributeError` is swallowed in
`reactivate_document_complete`, the preserved chunks stay inactive, no
rebuild runs, and the persisted index still holds only the
empty-placeholder vector instead of the document's chunks. -/
theorem reupload_reactivates_document_but_not_chunks :
    demoStep4.1 = .ok { id := 1, filename := "f.pdf", original_filename := "f.pdf",
                        document_hash := "h", processing_status := "pending",
                        is_active := true } ∧
    demoStep4.2.db.docs.length = 1 ∧
    demoStep4.2.db.chunks.all (fun c => !c.is_active) = true ∧
    demoStep4.2.db.chunks.length = 2 ∧
    demoStep4.2.disk = demoSys3.disk ∧
    demoStep4.2.disk = some [emptyPlaceholder] ∧
    getGlobalChunkCount demoStep4.2.db = 0 :=
  ⟨rfl, by decide, by decide, by decide, by decide, by decide, by decide⟩

/-! ### C6 — duplicate active content hash is rejected -/

/-- C6: when an active document with the uploaded file's content hash
already exists, `create_admin_document` raises the duplicate-content
`ValueError` and the whole state — every ledger row and the index — is
untouched. -/
theorem duplicate_active_hash_rejected (sys : Sys) (fn ofn fileHash : String)
    (hdup : documentExistsByHash sys.db fileHash = true) :
    createAdminDocument sys fn ofn fileHash = (.error .duplicateContent, sys) := by
  unfold createAdminDocument
  rw [if_pos hdup]

/-- Witness: re-uploading hash "h" while document 1 (hash "h") is still
active is rejected without any state change. -/
theorem duplicate_active_hash_rejected_witness :
    documentExistsByHash demoSys1.db "h" = true ∧
    createAdminDocument demoSys1 "g.pdf" "g.pdf" "h" = (.error .duplicateContent, demoSys1) :=
  ⟨by decide, duplicate_active_hash_rejected demoSys1 "g.pdf" "g.pdf" "h" (by decide)⟩

/-! ### C10 — soft delete commits the ledger first and masks index failures -/

/-- C10: a soft delete with a failing index removal/rebuild still returns
`True`; the document row and the document's chunks are committed inactive
while the persisted index is left exactly as it was (stale), and no error
reaches the caller. -/
theorem managerRemove_docs_unchanged (sys : Sys) (did : Nat) (saveOk : Bool) :
    (managerRemoveDocument sys did saveOk).2.db.docs = sys.db.docs := by
  unfold managerRemoveDocument
  split
  · exact serviceRemove_docs_unchanged _ did
  · rw [rebuild_docs_unchanged]
    exact serviceRemove_docs_unchanged _ did

theorem soft_delete_commits_ledger_and_masks_index_failure (sys : Sys) (did : Nat) :
    (deleteDocumentSoft sys did false).1 = true ∧
    (∀ d ∈ (deleteDocumentSoft sys did false).2.db.docs, d.id = did → d.is_active = false) ∧
    (∀ c ∈ (deleteDocumentSoft sys did false).2.db.chunks, c.document_id = did → c.is_active = false) ∧
    (deleteDocumentSoft sys did false).2.disk = sys.disk := by
  have hdocs : (deleteDocumentSoft sys did false).2.db.docs
      = sys.db.docs.map (fun d => if d.id == did then { d with is_active := false } else d) := by
    unfold deleteDocumentSoft
    exact managerRemove_docs_unchanged _ did false
  have hchunks : (deleteDocumentSoft sys did false).2.db.chunks.filter
      (fun c => c.document_id == did && c.is_active) = [] := by
    unfold deleteDocumentSoft
    exact managerRemove_deactivates _ did false
  refine ⟨rfl, ?_, ?_, ?_⟩
  · intro d hd hid
    rw [hdocs] at hd
    obtain ⟨d0, _hd0, hmap⟩ := List.mem_map.mp hd
    by_cases h0 : (d0.id == did) = true
    · rw [if_pos h0] at hmap
      rw [← hmap]
    · rw [if_neg h0] at hmap
      subst hmap
      exact absurd (beq_iff_eq.mpr hid) h0
  · intro c hc hid
    have hnc := List.filter_eq_nil_iff.mp hchunks c hc
    by_cases ha : c.is_active = true
    · exact absurd (by simp [beq_iff_eq.mpr hid, ha]) hnc
    · simpa using ha
  · show (managerRemoveDocument _ did false).2.disk = sys.disk
    unfold managerRemoveDocument
    split
    · rfl
    · rw [rebuild_false_noop]

/-- Witness: the soft delete of document 1 with a failing rebuild still
returns `True` and leaves the persisted index untouched. -/
theorem soft_delete_masks_failure_witness :
    (deleteDocumentSoft demoSys2 1 false).1 = true ∧
    (deleteDocumentSoft demoSys2 1 false).2.disk = demoSys2.disk :=
  ⟨(soft_delete_commits_ledger_and_masks_index_failure demoSys2 1).1,
   (soft_delete_commits_ledger_and_masks_index_failure demoSys2 1).2.2.2⟩

/-! ### C4 — add_document failure before the ledger insert -/

/-- C4: if the FAISS append or the index save fails inside
`add_document_to_global_store`, the call reports failure, not a single
chunk row has been written, and the ledger still matches the last
successfully persisted index (the load-or-create step may have seeded a
fresh placeholder-only store, which holds no real vectors). -/
theorem add_document_failure_preserves_ledger (sys : Sys) (did : Nat)
    (cs : List ChunkIn) (appendOk saveOk : Bool)
    (hfail : appendOk = false ∨ saveOk = false) (hcons : consistentSys sys) :
    (addDocumentToGlobalStore sys did cs appendOk saveOk).1 = false ∧
    (addDocumentToGlobalStore sys did cs appendOk saveOk).2.db = sys.db ∧
    consistentSys (addDocumentToGlobalStore sys did cs appendOk saveOk).2 := by
  have hdisk1 : consistentSys { sys with disk := (loadOrCreateGlobalStore sys.disk).2 } := by
    unfold consistentSys at hcons ⊢
    cases hd : sys.disk with
    | none =>
        rw [hd] at hcons
        have hpl : realVectorCount (loadOrCreateGlobalStore none).2 = 0 := by decide
        rw [hpl]
        exact hcons
    | some es =>
        rw [hd] at hcons
        exact hcons
  unfold addDocumentToGlobalStore
  by_cases hcs : cs.isEmpty = true
  · rw [if_pos hcs]
    exact ⟨rfl, rfl, hcons⟩
  · rw [if_neg hcs]
    rcases hfail with hA | hS
    · subst hA
      exact ⟨rfl, rfl, hdisk1⟩
    · subst hS
      cases appendOk with
      | false => exact ⟨rfl, rfl, hdisk1⟩
      | true => exact ⟨rfl, rfl, hdisk1⟩

/-- Witness: a failing append of a 1-chunk document on the fresh
post-upload state writes no ledger rows and keeps consistency. -/
theorem add_document_failure_witness :
    (addDocumentToGlobalStore demoSys1 1 [⟨"alpha", demoMeta1⟩] false true).1 = false ∧
    (addDocumentToGlobalStore demoSys1 1 [⟨"alpha", demoMeta1⟩] false true).2.db = demoSys1.db ∧
    consistentSys (addDocumentToGlobalStore demoSys1 1 [⟨"alpha", demoMeta1⟩] false true).2 :=
  add_document_failure_preserves_ledger demoSys1 1 [⟨"alpha", demoMeta1⟩] false true
    (Or.inl rfl) (by unfold consistentSys; decide)

/-! ### C8 — use_documents = false never touches the vector index -/

/-- C8 counterexample: on the RBAC router — the one `main.py` mounts — a
regular user's query with `has_pdf = false` is rejected with HTTP 403
before any LLM call; the outcome is not the claimed source="general"
reply produced by the LLM on the raw query. -/
theorem rbac_user_general_query_rejected :
    chatWithRagRbac .user none false "hello" (fun _ => "llm-answer") none
      (fun _ => ("", [])) = (.httpError 403, false) ∧
    (ChatResult.httpError 403 ≠ ChatResult.reply "llm-answer" "general" false) :=
  ⟨rfl, by decide⟩

/-- C8 (amended): with `has_pdf = false` neither router ever loads or
searches a vector index; on the legacy router every non-cached response
is the direct LLM answer tagged "general", while on the mounted RBAC
router regular users receive HTTP 403 and admins receive the direct LLM
answer tagged "general". -/
theorem no_pdf_query_bypasses_vector_index (q : String) (general : String → String)
    (store : Option (List GEntry)) (rag : List GEntry → String × List SourceInfo)
    (cached : Option CachedResp) (role : Role) :
    (chatWithRag cached false q general store rag).2 = false ∧
    (chatWithRagRbac role cached false q general store rag).2 = false ∧
    chatWithRag none false q general store rag = (.reply (general q) "general" false, false) ∧
    chatWithRagRbac .user cached false q general store rag = (.httpError 403, false) ∧
    chatWithRagRbac .admin none false q general store rag
      = (.reply (general q) "general" false, false) := by
  refine ⟨?_, ?_, rfl, rfl, rfl⟩
  · cases cached <;> rfl
  · cases role <;> cases cached <;> rfl

/-! ### C9 — the placeholder and result filtering -/

/-- C9 counterexample: after a rebuild over an empty active set the
persisted index holds exactly the placeholder; the retrieval path loads
that store (its raw `ntotal` is 1, not 0), so a top-k search over this
one-vector index necessarily returns the placeholder — and citation
extraction turns it into an "Unknown Document" citation instead of
filtering it out: no metadata filtering exists on the query path. -/
theorem placeholder_store_loaded_and_cited :
    placeholderOnlySys.disk = some [emptyPlaceholder] ∧
    loadGlobalVectorStores placeholderOnlySys.disk = some [emptyPlaceholder] ∧
    isPlaceholder emptyPlaceholder = true ∧
    extractSources [emptyPlaceholder] =
      [{ document := "Unknown Document", page := .unknownPage, chunk_index := 1 }] :=
  ⟨by decide, by decide, by decide, by decide⟩
/-! ### C7 — citation deduplication by (filename, page)

The dedup key in the source is the concatenated string
`f"{document}-{page}"`; the spec speaks of the (filename, page) pair.
The following develops that the key is injective on resolved pairs
(decimal page renderings contain no dash), hence the two coincide. -/


theorem digitChar_isDigit (m : Nat) (h : m < 10) : (Nat.digitChar m).isDigit = true := by
  interval_cases m <;> decide

theorem digitChar_decStep (v m : Nat) (h : m < 10) :
    decStep v (Nat.digitChar m) = 10 * v + m := by
  interval_cases m <;> simp [decStep, Nat.digitChar]

theorem toDigitsCore_all_digits :
    ∀ (fuel n : Nat) (ds : List Char), (∀ c ∈ ds, c.isDigit = true) →
      ∀ c ∈ Nat.toDigitsCore 10 fuel n ds, c.isDigit = true := by
  intro fuel
  induction fuel with
  | zero => intro n ds h c hc; exact h c hc
  | succ f ih =>
      intro n ds h c hc
      simp only [Nat.toDigitsCore] at hc
      by_cases h0 : n / 10 = 0
      · rw [if_pos h0] at hc
        rcases List.mem_cons.mp hc with h1 | h1
        · subst h1; exact digitChar_isDigit _ (Nat.mod_lt _ (by norm_num))
        · exact h c h1
      · rw [if_neg h0] at hc
        refine ih (n / 10) (Nat.digitChar (n % 10) :: ds) ?_ c hc
        intro c' hc'
        rcases List.mem_cons.mp hc' with h1 | h1
        · subst h1; exact digitChar_isDigit _ (Nat.mod_lt _ (by norm_num))
        · exact h c' h1

theorem foldl_decStep_toDigitsCore :
    ∀ (fuel n : Nat) (ds : List Char), n < fuel →
      List.foldl decStep 0 (Nat.toDigitsCore 10 fuel n ds) = List.foldl decStep n ds := by
  intro fuel
  induction fuel with
  | zero => intro n ds h; omega
  | succ f ih =>
      intro n ds h
      simp only [Nat.toDigitsCore]
      by_cases h0 : n / 10 = 0
      · rw [if_pos h0]
        rw [List.foldl_cons]
        rw [digitChar_decStep 0 (n % 10) (Nat.mod_lt _ (by norm_num))]
        have hmod : n % 10 = n := by omega
        rw [Nat.mul_zero, Nat.zero_add, hmod]
      · rw [if_neg h0]
        have hlt : n / 10 < f := by
          have h1 : n / 10 < n := Nat.div_lt_self (by omega) (by norm_num)
          omega
        rw [ih (n / 10) _ hlt]
        rw [List.foldl_cons]
        rw [digitChar_decStep (n / 10) (n % 10) (Nat.mod_lt _ (by norm_num))]
        have hsplit : 10 * (n / 10) + n % 10 = n := by omega
        rw [hsplit]

theorem repr_data_eq (n : Nat) : (Nat.repr n).data = Nat.toDigitsCore 10 (n + 1) n [] := rfl

theorem repr_all_digits (n : Nat) : ∀ c ∈ (Nat.repr n).data, c.isDigit = true := by
  rw [repr_data_eq]
  exact toDigitsCore_all_digits (n + 1) n [] (by intro c hc; cases hc)

theorem repr_decVal (n : Nat) : List.foldl decStep 0 (Nat.repr n).data = n := by
  rw [repr_data_eq]
  rw [foldl_decStep_toDigitsCore (n + 1) n [] (Nat.lt_succ_self n)]
  rfl

theorem repr_injective : Function.Injective Nat.repr := by
  intro a b h
  have ha := repr_decVal a
  rw [h, repr_decVal] at ha
  exact ha.symm

theorem repr_no_dash (n : Nat) : '-' ∉ (Nat.repr n).data := by
  intro hmem
  have := repr_all_digits n '-' hmem
  simp at this

theorem append_dash_inj :
    ∀ (u1 : List Char) (v1 : List Char) (u2 : List Char) (v2 : List Char),
      '-' ∉ v1 → '-' ∉ v2 → u1 ++ '-' :: v1 = u2 ++ '-' :: v2 → u1 = u2 ∧ v1 = v2 := by
  intro u1
  induction u1 with
  | nil =>
      intro v1 u2 v2 h1 h2 heq
      cases u2 with
      | nil => simpa using heq
      | cons c u2' =>
          simp only [List.nil_append, List.cons_append, List.cons.injEq] at heq
          obtain ⟨hc, htail⟩ := heq
          exfalso
          apply h1
          rw [htail]
          exact List.mem_append_right _ (List.mem_cons_self _ _)
  | cons c u1' ih =>
      intro v1 u2 v2 h1 h2 heq
      cases u2 with
      | nil =>
          simp only [List.cons_append, List.nil_append, List.cons.injEq] at heq
          obtain ⟨hc, htail⟩ := heq
          exfalso
          apply h2
          rw [← htail]
          exact List.mem_append_right _ (List.mem_cons_self _ _)
      | cons c2 u2' =>
          simp only [List.cons_append, List.cons.injEq] at heq
          obtain ⟨hc, htail⟩ := heq
          obtain ⟨hu, hv⟩ := ih v1 u2' v2 h1 h2 htail
          exact ⟨by rw [hc, hu], hv⟩

theorem pageStr_no_dash (p : PageVal) : '-' ∉ p.str.data := by
  cases p with
  | num n => exact repr_no_dash n
  | unknownPage => decide

theorem pageStr_injective {p q : PageVal} (h : p.str = q.str) : p = q := by
  cases p with
  | num n =>
      cases q with
      | num m =>
          have hm := repr_injective (show Nat.repr n = Nat.repr m from h)
          rw [hm]
      | unknownPage =>
          exfalso
          have hU : 'U' ∈ (Nat.repr n).data := by
            have : (Nat.repr n).data = "Unknown Page".data := congrArg String.data h
            rw [this]
            decide
          have := repr_all_digits n 'U' hU
          simp at this
  | unknownPage =>
      cases q with
      | num m =>
          exfalso
          have hU : 'U' ∈ (Nat.repr m).data := by
            have : "Unknown Page".data = (Nat.repr m).data := congrArg String.data h
            rw [← this]
            decide
          have := repr_all_digits m 'U' hU
          simp at this
      | unknownPage => rfl

theorem pairKey_injective {p q : String × PageVal} (h : pairKey p = pairKey q) : p = q := by
  have hdata : p.1.data ++ '-' :: p.2.str.data = q.1.data ++ '-' :: q.2.str.data := by
    have h1 := congrArg String.data h
    simpa [pairKey, String.data_append] using h1
  obtain ⟨hdoc, hpage⟩ := append_dash_inj p.1.data p.2.str.data q.1.data q.2.str.data
    (pageStr_no_dash p.2) (pageStr_no_dash q.2) hdata
  have h1 : p.1 = q.1 := String.ext hdoc
  have h2 : p.2 = q.2 := pageStr_injective (String.ext hpage)
  exact Prod.ext h1 h2

theorem sourceKey_eq_pairKey (s : SourceInfo) : sourceKey s = pairKey (citePair s) := rfl

theorem contains_true_iff_mem {α : Type} [BEq α] [LawfulBEq α] {l : List α} {a : α} :
    l.contains a = true ↔ a ∈ l := List.elem_iff

theorem contains_map_pairKey (seen : List (String × PageVal)) (pr : String × PageVal) :
    (seen.map pairKey).contains (pairKey pr) = seen.contains pr := by
  by_cases h : seen.contains pr = true
  · rw [h]
    rw [contains_true_iff_mem] at h ⊢
    exact List.mem_map_of_mem pairKey h
  · rw [Bool.eq_false_iff.mpr h]
    rw [Bool.eq_false_iff]
    intro hmem
    apply h
    rw [contains_true_iff_mem] at hmem ⊢
    obtain ⟨x, hx, hkey⟩ := List.mem_map.mp hmem
    rwa [← pairKey_injective hkey]



theorem retrievedInfos_nil : retrievedInfos [] = [] := rfl

theorem extract_eq_dedup_aux :
    ∀ (docs : List GEntry) (sources : List SourceInfo) (seen : List (String × PageVal)),
      extractSourcesAux docs sources (seen.map pairKey) =
        dedupByPairAux (retrievedInfos docs) sources seen := by
  intro docs
  induction docs with
  | nil => intro sources seen; rfl
  | cons d rest ih =>
      intro sources seen
      by_cases hm : (d.metadata == emptyMeta) = true
      · rw [show extractSourcesAux (d :: rest) sources (seen.map pairKey)
              = extractSourcesAux rest sources (seen.map pairKey) from by
            simp only [extractSourcesAux]; rw [if_pos hm]]
        rw [show retrievedInfos (d :: rest) = retrievedInfos rest from by
          simp only [retrievedInfos, List.filter_cons]
          rw [hm]
          rfl]
        exact ih sources seen
      · have hinfo : retrievedInfos (d :: rest)
            = sourceInfoOf d.metadata :: retrievedInfos rest := by
          simp only [retrievedInfos, List.filter_cons]
          rw [Bool.eq_false_iff.mpr hm]
          rfl
        rw [hinfo]
        simp only [extractSourcesAux, dedupByPairAux]
        rw [if_neg hm]
        rw [sourceKey_eq_pairKey, contains_map_pairKey]
        by_cases hs : seen.contains (citePair (sourceInfoOf d.metadata)) = true
        · rw [if_pos hs, if_pos hs]
          exact ih sources seen
        · rw [if_neg hs, if_neg hs]
          rw [show seen.map pairKey ++ [pairKey (citePair (sourceInfoOf d.metadata))]
                = (seen ++ [citePair (sourceInfoOf d.metadata)]).map pairKey from by
            rw [List.map_append]; rfl]
          exact ih (sources ++ [sourceInfoOf d.metadata]) (seen ++ [citePair (sourceInfoOf d.metadata)])

theorem dedupByPairAux_nodup :
    ∀ (l : List SourceInfo) (sources : List SourceInfo) (seen : List (String × PageVal)),
      (sources.map citePair).Nodup → (∀ s ∈ sources, citePair s ∈ seen) →
      ((dedupByPairAux l sources seen).map citePair).Nodup := by
  intro l
  induction l with
  | nil => intro sources seen h1 _h2; exact h1
  | cons s rest ih =>
      intro sources seen h1 h2
      simp only [dedupByPairAux]
      by_cases hs : seen.contains (citePair s) = true
      · rw [if_pos hs]
        exact ih sources seen h1 h2
      · rw [if_neg hs]
        refine ih (sources ++ [s]) (seen ++ [citePair s]) ?_ ?_
        · rw [List.map_append]
          rw [List.nodup_append]
          refine ⟨h1, by simp, ?_⟩
          intro p hp hps
          rcases List.mem_singleton.mp hps
          obtain ⟨s0, hs0, hps0⟩ := List.mem_map.mp hp
          apply hs
          rw [contains_true_iff_mem]
          rw [← hps0] at *
          exact h2 s0 hs0
        · intro s0 hs0
          rcases List.mem_append.mp hs0 with h | h
          · exact List.mem_append_left _ (h2 s0 h)
          · rw [List.mem_singleton.mp h]
            exact List.mem_append_right _ (List.mem_singleton.mpr rfl)

/-- C7: citation extraction deduplicates exactly by the (filename, page)
pair while preserving first-seen order: the loop's string-key
deduplication coincides with keeping the first citation of each
(document, page) pair, so each pair occurring in the retrieved list
yields exactly one citation, in first-encounter order. -/
theorem citation_dedup_by_pair (docs : List GEntry) :
    extractSources docs = dedupByPair (retrievedInfos docs) ∧
    ((extractSources docs).map citePair).Nodup := by
  have he : extractSources docs = dedupByPair (retrievedInfos docs) := by
    have h := extract_eq_dedup_aux docs [] []
    simpa [extractSources, dedupByPair] using h
  refine ⟨he, ?_⟩
  rw [he]
  exact dedupByPairAux_nodup (retrievedInfos docs) [] [] (by simp) (by simp)
/-! ### C1, C2, C9 — the rebuild invariants

The SQL join is characterised through the unique active document per id,
the `UPDATE` loop through its per-row effect, and sorted lists are
compared via permutation + strict sortedness. -/


/-! Machinery for the rebuild invariants (C1, C2). -/

theorem filter_active_doc (docs : List AdminDocument) (did : Nat)
    (hnd : (docs.map (·.id)).Nodup) :
    docs.filter (fun d => d.id == did && d.is_active)
      = (docs.find? (fun d => d.id == did && d.is_active)).toList := by
  induction docs with
  | nil => rfl
  | cons d rest ih =>
      rw [List.map_cons, List.nodup_cons] at hnd
      obtain ⟨hdmem, hndrest⟩ := hnd
      by_cases hp : (d.id == did && d.is_active) = true
      · have hrest : rest.filter (fun d => d.id == did && d.is_active) = [] := by
          rw [List.filter_eq_nil_iff]
          intro a ha hpa
          apply hdmem
          have h1 : a.id = did := beq_iff_eq.mp (Bool.and_elim_left hpa)
          have h2 : d.id = did := beq_iff_eq.mp (Bool.and_elim_left hp)
          rw [h2, ← h1]
          exact List.mem_map_of_mem (·.id) ha
        simp only [List.filter_cons, List.find?_cons, hp, if_true]
        rw [hrest]
        rfl
      · have hp2 : (d.id == did && d.is_active) = false := Bool.eq_false_iff.mpr hp
        simp only [List.filter_cons, List.find?_cons, hp2, Bool.false_eq_true, if_false]
        exact ih hndrest

theorem joinActive_eq_unique (db : DB) (hnd : (db.docs.map (·.id)).Nodup) :
    joinActive db = joinActiveUnique db := by
  unfold joinActive joinActiveUnique
  generalize db.chunks = l
  induction l with
  | nil => rfl
  | cons c rest ih =>
      rw [List.flatMap_cons, List.filterMap_cons]
      by_cases ha : c.is_active = true
      · rw [if_pos ha, if_pos ha]
        rw [filter_active_doc db.docs c.document_id hnd]
        cases hf : db.docs.find? (fun d => d.id == c.document_id && d.is_active) with
        | none =>
            simp only [hf, Option.toList_none, List.map_nil, List.nil_append, Option.map_none']
            exact ih
        | some d =>
            simp only [hf, Option.toList_some, List.map_cons, List.map_nil, Option.map_some']
            rw [List.cons_append, List.nil_append]
            rw [ih]
      · rw [if_neg ha, if_neg ha]
        rw [List.nil_append]
        exact ih

theorem docActive_eq_find_isSome (docs : List AdminDocument) (did : Nat) :
    docActive docs did = (docs.find? (fun d => d.id == did && d.is_active)).isSome := by
  unfold docActive
  cases hf : docs.find? (fun d => d.id == did && d.is_active) with
  | none =>
      rw [Option.isSome_none]
      rw [← Bool.not_eq_true, List.any_eq_true]
      rintro ⟨x, hx, hpx⟩
      exact absurd hpx (List.find?_eq_none.mp hf x hx)
  | some d =>
      rw [Option.isSome_some]
      rw [List.any_eq_true]
      have hpd := List.find?_some hf
      exact ⟨d, List.mem_of_find?_eq_some hf, hpd⟩

theorem filter_eq_filterMap_if {α : Type} (p : α → Bool) (l : List α) :
    l.filter p = l.filterMap (fun a => if p a then some a else none) := by
  induction l with
  | nil => rfl
  | cons a rest ih =>
      by_cases hp : p a = true
      · simp only [List.filter_cons, List.filterMap_cons, hp, if_true]
        rw [ih]
      · have hp2 : p a = false := Bool.eq_false_iff.mpr hp
        simp only [List.filter_cons, List.filterMap_cons, hp2, Bool.false_eq_true, if_false]
        rw [ih]

theorem joinActiveUnique_map_fst (db : DB) :
    (joinActiveUnique db).map Prod.fst = activeChunksOf db := by
  unfold joinActiveUnique activeChunksOf
  rw [List.map_filterMap]
  rw [filter_eq_filterMap_if]
  refine congrArg (fun h => List.filterMap h db.chunks) (funext fun c => ?_)
  by_cases ha : c.is_active = true
  · rw [if_pos ha]
    rw [docActive_eq_find_isSome db.docs c.document_id]
    cases hf : db.docs.find? (fun d => d.id == c.document_id && d.is_active) with
    | none => simp [ha]
    | some d => simp [ha]
  · rw [if_neg ha]
    simp [ha]

theorem mem_joinActive {db : DB} {p : ChunkRow × AdminDocument} (hp : p ∈ joinActive db) :
    p.1 ∈ db.chunks ∧ p.1.is_active = true ∧ docActive db.docs p.1.document_id = true := by
  unfold joinActive at hp
  obtain ⟨c, hc, hpc⟩ := List.mem_flatMap.mp hp
  by_cases ha : c.is_active = true
  · rw [if_pos ha] at hpc
    obtain ⟨d, hd, hcd⟩ := List.mem_map.mp hpc
    obtain ⟨hdmem, hdpred⟩ := List.mem_filter.mp hd
    rw [← hcd]
    refine ⟨hc, ha, ?_⟩
    unfold docActive
    rw [List.any_eq_true]
    exact ⟨d, hdmem, hdpred⟩
  · rw [if_neg ha] at hpc
    cases hpc

theorem mem_active_of_joinActive {db : DB} {p : ChunkRow × AdminDocument}
    (hp : p ∈ joinActive db) : p.1 ∈ activeChunksOf db := by
  obtain ⟨h1, h2, h3⟩ := mem_joinActive hp
  unfold activeChunksOf
  rw [List.mem_filter]
  refine ⟨h1, ?_⟩
  rw [h2, h3]
  rfl

theorem pairwise_lt_of_le_nodup_vec (l : List ChunkRow)
    (hle : List.Pairwise LeVec l) (hnd : (l.map (·.vector_index)).Nodup) :
    List.Pairwise LtVec l := by
  have hne : List.Pairwise (fun a b : ChunkRow => a.vector_index ≠ b.vector_index) l :=
    List.pairwise_map.mp hnd
  refine (hle.and hne).imp ?_
  intro a b hab
  obtain ⟨h1, h2⟩ := hab
  unfold LeVec at h1
  unfold LtVec
  omega

theorem pairwise_lt_of_le_nodup_docvec (l : List (ChunkRow × AdminDocument))
    (hle : List.Pairwise LeDocVec l)
    (hnd : (l.map (fun p => (p.1.document_id, p.1.vector_index))).Nodup) :
    List.Pairwise LtDocVec l := by
  have hne := List.pairwise_map.mp hnd
  refine (hle.and hne).imp ?_
  intro a b hab
  obtain ⟨h1, h2⟩ := hab
  unfold LeDocVec at h1
  unfold LtDocVec
  rcases h1 with h | ⟨hd, hv⟩
  · exact Or.inl h
  · refine Or.inr ⟨hd, ?_⟩
    have hne2 : a.1.vector_index ≠ b.1.vector_index := by
      intro he
      exact h2 (by rw [hd, he])
    omega

theorem pairwise_lt_of_le_nodup_docchunk (l : List (ChunkRow × AdminDocument))
    (hle : List.Pairwise LeDocChunk l)
    (hnd : (l.map (fun p => (p.1.document_id, p.1.chunk_index))).Nodup) :
    List.Pairwise LtDocChunk l := by
  have hne := List.pairwise_map.mp hnd
  refine (hle.and hne).imp ?_
  intro a b hab
  obtain ⟨h1, h2⟩ := hab
  unfold LeDocChunk at h1
  unfold LtDocChunk
  rcases h1 with h | ⟨hd, hv⟩
  · exact Or.inl h
  · refine Or.inr ⟨hd, ?_⟩
    have hne2 : a.1.chunk_index ≠ b.1.chunk_index := by
      intro he
      exact h2 (by rw [hd, he])
    omega

theorem assignPositions_not_mem (rows : List (ChunkRow × AdminDocument)) (i : Nat)
    (c : ChunkRow) (h : ∀ p ∈ rows, p.1.id ≠ c.id) :
    assignPositions rows i c = c := by
  induction rows generalizing i with
  | nil => rfl
  | cons p rest ih =>
      simp only [assignPositions]
      rw [if_neg (by
        rw [beq_iff_eq]
        exact h p (List.mem_cons_self _ _))]
      exact ih (i + 1) (fun q hq => h q (List.mem_cons_of_mem _ hq))

theorem assignPositions_getElem :
    ∀ (rows : List (ChunkRow × AdminDocument)), (rows.map (·.1.id)).Nodup →
      ∀ (i j : Nat) (hj : j < rows.length),
        assignPositions rows i (rows[j]).1 = setVi (i + j) (rows[j]).1 := by
  intro rows
  induction rows with
  | nil => intro _ i j hj; simp at hj
  | cons p rest ih =>
      intro hnd i j hj
      rw [List.map_cons, List.nodup_cons] at hnd
      obtain ⟨hpmem, hndrest⟩ := hnd
      cases j with
      | zero =>
          simp only [List.getElem_cons_zero]
          have hni : ∀ q ∈ rest, q.1.id ≠ (setVi i p.1).id := by
            intro q hq he
            apply hpmem
            have : q.1.id = p.1.id := he
            rw [← this]
            exact List.mem_map_of_mem (·.1.id) hq
          calc assignPositions (p :: rest) i p.1
              = assignPositions rest (i + 1) (setVi i p.1) := by
                simp only [assignPositions]
                rw [if_pos (beq_self_eq_true _)]
                rfl
            _ = setVi i p.1 := assignPositions_not_mem _ _ _ hni
            _ = setVi (i + 0) p.1 := by rw [Nat.add_zero]
      | succ k =>
          simp only [List.getElem_cons_succ]
          have hk : k < rest.length := by
            simp only [List.length_cons] at hj
            omega
          have hkm : (rest[k]).1.id ∈ rest.map (·.1.id) :=
            List.mem_map_of_mem (·.1.id) (List.getElem_mem hk)
          calc assignPositions (p :: rest) i (rest[k]).1
              = assignPositions rest (i + 1) (rest[k]).1 := by
                simp only [assignPositions]
                rw [if_neg (by
                  rw [beq_iff_eq]
                  intro he
                  apply hpmem
                  rw [he]
                  exact hkm)]
            _ = setVi (i + 1 + k) (rest[k]).1 := ih hndrest (i + 1) k hk
            _ = setVi (i + (k + 1)) (rest[k]).1 := by
                rw [show i + 1 + k = i + (k + 1) from by omega]



theorem joinActiveUnique_update (db : DB) (f : ChunkRow → ChunkRow)
    (hact : ∀ c, (f c).is_active = c.is_active)
    (hdoc : ∀ c, (f c).document_id = c.document_id) :
    joinActiveUnique { db with chunks := db.chunks.map f }
      = (joinActiveUnique db).map (fun p => (f p.1, p.2)) := by
  unfold joinActiveUnique
  rw [List.map_filterMap]
  show List.filterMap _ (db.chunks.map f) = _
  rw [List.filterMap_map]
  refine congrArg (fun h => List.filterMap h db.chunks) (funext fun c => ?_)
  show (if (f c).is_active = true then
          (db.docs.find? (fun d => d.id == (f c).document_id && d.is_active)).map
            (fun d => (f c, d))
        else none)
      = Option.map (fun p => (f p.1, p.2))
          (if c.is_active = true then
            (db.docs.find? (fun d => d.id == c.document_id && d.is_active)).map
              (fun d => (c, d))
          else none)
  rw [hact c, hdoc c]
  by_cases ha : c.is_active = true
  · rw [if_pos ha, if_pos ha]
    cases db.docs.find? (fun d => d.id == c.document_id && d.is_active) <;> rfl
  · rw [if_neg ha, if_neg ha]
    rfl

theorem joinActive_map_fst (db : DB) (hnd : (db.docs.map (·.id)).Nodup) :
    (joinActive db).map Prod.fst = activeChunksOf db := by
  rw [joinActive_eq_unique db hnd]
  exact joinActiveUnique_map_fst db

theorem getActive_key_nodup {κ : Type} (db : DB) (key : ChunkRow → κ)
    (hc : (db.chunks.map key).Nodup) (hd : (db.docs.map (·.id)).Nodup) :
    ((getActiveDocumentChunks db).map (fun p => key p.1)).Nodup := by
  have hperm : (getActiveDocumentChunks db).Perm (joinActive db) :=
    List.perm_insertionSort _ _
  have hJ : (joinActive db).map (fun p => key p.1) = (activeChunksOf db).map key := by
    rw [show (fun p : ChunkRow × AdminDocument => key p.1) = key ∘ Prod.fst from rfl]
    rw [← List.map_map, joinActive_map_fst db hd]
  have hsub : ((activeChunksOf db).map key).Sublist (db.chunks.map key) :=
    (List.filter_sublist _).map _
  have hjn : ((joinActive db).map (fun p => key p.1)).Nodup := by
    rw [hJ]
    exact hsub.nodup hc
  exact ((hperm.map (fun p => key p.1)).symm).nodup hjn

theorem wf_docvec_nodup (db : DB) (hwf : WFdb db) :
    ((activeChunksOf db).map (fun c => (c.document_id, c.vector_index))).Nodup := by
  have h2 := List.pairwise_map.mp hwf.docChunkNodup
  refine List.pairwise_map.mpr ?_
  refine h2.imp_of_mem ?_
  intro a b ha hb hne heq
  have hdoc : a.document_id = b.document_id := congrArg Prod.fst heq
  have hvi : a.vector_index = b.vector_index := congrArg Prod.snd heq
  rcases Nat.lt_trichotomy a.chunk_index b.chunk_index with h | h | h
  · have := hwf.monoVec a ha b hb hdoc h
    omega
  · exact hne (by rw [hdoc, h])
  · have := hwf.monoVec b hb a ha hdoc.symm h
    omega

theorem getActive_after_update (db : DB) (hwfC : (db.chunks.map (·.id)).Nodup)
    (hwfD : (db.docs.map (·.id)).Nodup) :
    getActiveDocumentChunks (updateChunkVectorIndices db (getActiveDocumentChunks db))
      = (getActiveDocumentChunks db).mapIdx (fun i p => (setVi i p.1, p.2)) := by
  have hAids : ((getActiveDocumentChunks db).map (fun p => p.1.id)).Nodup :=
    getActive_key_nodup db (·.id) hwfC hwfD
  have hju : joinActive (updateChunkVectorIndices db (getActiveDocumentChunks db))
      = (joinActive db).map
          (fun p => (assignPositions (getActiveDocumentChunks db) 0 p.1, p.2)) := by
    calc joinActive (updateChunkVectorIndices db (getActiveDocumentChunks db))
        = joinActiveUnique (updateChunkVectorIndices db (getActiveDocumentChunks db)) :=
          joinActive_eq_unique _ hwfD
      _ = (joinActiveUnique db).map
            (fun p => (assignPositions (getActiveDocumentChunks db) 0 p.1, p.2)) :=
          joinActiveUnique_update db (assignPositions (getActiveDocumentChunks db) 0)
            (fun c => assignPositions_is_active _ 0 c)
            (fun c => assignPositions_document_id _ 0 c)
      _ = (joinActive db).map
            (fun p => (assignPositions (getActiveDocumentChunks db) 0 p.1, p.2)) := by
          rw [joinActive_eq_unique db hwfD]
  have hmapA : (getActiveDocumentChunks db).map
      (fun p => (assignPositions (getActiveDocumentChunks db) 0 p.1, p.2))
      = (getActiveDocumentChunks db).mapIdx (fun i p => (setVi i p.1, p.2)) := by
    refine List.ext_getElem (by rw [List.length_map, List.length_mapIdx]) ?_
    intro n h1 h2
    rw [List.getElem_map, List.getElem_mapIdx]
    have hlen : n < (getActiveDocumentChunks db).length := by
      rw [List.length_map] at h1
      exact h1
    have hget := assignPositions_getElem (getActiveDocumentChunks db) hAids 0 n hlen
    rw [Prod.mk.injEq]
    refine ⟨?_, rfl⟩
    rw [hget, Nat.zero_add]
  have hperm2 : (joinActive (updateChunkVectorIndices db (getActiveDocumentChunks db))).Perm
      ((getActiveDocumentChunks db).mapIdx (fun i p => (setVi i p.1, p.2))) := by
    rw [hju, ← hmapA]
    exact ((List.perm_insertionSort LeDocVec (joinActive db)).map _).symm
  have hsortA : List.Pairwise LeDocVec (getActiveDocumentChunks db) :=
    List.sorted_insertionSort LeDocVec (joinActive db)
  have hsortA2 : List.Pairwise LtDocVec
      ((getActiveDocumentChunks db).mapIdx (fun i p => (setVi i p.1, p.2))) := by
    rw [List.pairwise_iff_getElem]
    intro i j hi hj hij
    rw [List.length_mapIdx] at hi hj
    rw [List.getElem_mapIdx, List.getElem_mapIdx]
    have hle : LeDocVec ((getActiveDocumentChunks db)[i])
        ((getActiveDocumentChunks db)[j]) :=
      List.pairwise_iff_getElem.mp hsortA i j hi hj hij
    unfold LeDocVec at hle
    unfold LtDocVec
    rcases hle with h | ⟨hd, _⟩
    · exact Or.inl h
    · exact Or.inr ⟨hd, hij⟩
  have hsorted2 : List.Pairwise LeDocVec
      (getActiveDocumentChunks (updateChunkVectorIndices db (getActiveDocumentChunks db))) :=
    List.sorted_insertionSort LeDocVec _
  have hsndA2 : ((getActiveDocumentChunks db).mapIdx (fun i p => (setVi i p.1, p.2))).map
      (fun p => p.1.vector_index) = List.range (getActiveDocumentChunks db).length := by
    refine List.ext_getElem (by rw [List.length_map, List.length_mapIdx, List.length_range]) ?_
    intro n h1 h2
    rw [List.getElem_map, List.getElem_mapIdx, List.getElem_range]
    rfl
  have hA2keys : (((getActiveDocumentChunks db).mapIdx (fun i p => (setVi i p.1, p.2))).map
      (fun p => (p.1.document_id, p.1.vector_index))).Nodup := by
    refine List.Nodup.of_map Prod.snd ?_
    rw [List.map_map]
    rw [show ((fun q : Nat × Nat => q.snd) ∘ fun p : ChunkRow × AdminDocument =>
          (p.1.document_id, p.1.vector_index)) = fun p => p.1.vector_index from rfl]
    rw [hsndA2]
    exact List.nodup_range _
  have hkeynd : ((getActiveDocumentChunks
      (updateChunkVectorIndices db (getActiveDocumentChunks db))).map
      (fun p => (p.1.document_id, p.1.vector_index))).Nodup := by
    have hp3 : (getActiveDocumentChunks
        (updateChunkVectorIndices db (getActiveDocumentChunks db))).Perm
        ((getActiveDocumentChunks db).mapIdx (fun i p => (setVi i p.1, p.2))) :=
      (List.perm_insertionSort LeDocVec _).trans hperm2
    exact ((hp3.map _).symm).nodup hA2keys
  have hstrict2 : List.Pairwise LtDocVec
      (getActiveDocumentChunks (updateChunkVectorIndices db (getActiveDocumentChunks db))) :=
    pairwise_lt_of_le_nodup_docvec _ hsorted2 hkeynd
  have hpermFinal : (getActiveDocumentChunks
      (updateChunkVectorIndices db (getActiveDocumentChunks db))).Perm
      ((getActiveDocumentChunks db).mapIdx (fun i p => (setVi i p.1, p.2))) :=
    (List.perm_insertionSort LeDocVec _).trans hperm2
  exact List.eq_of_perm_of_sorted hpermFinal hstrict2 hsortA2



theorem rebuild_nonempty_eq (sys : Sys)
    (h : (getActiveDocumentChunks sys.db).isEmpty = false) :
    rebuildGlobalStore sys true =
      (true,
       { db := updateChunkVectorIndices sys.db (getActiveDocumentChunks sys.db)
         disk := some ((getActiveDocumentChunks sys.db).map rebuildEntry) }) := by
  unfold rebuildGlobalStore
  rw [h]
  rfl

theorem rebuild_empty_eq (sys : Sys)
    (h : (getActiveDocumentChunks sys.db).isEmpty = true) :
    rebuildGlobalStore sys true = (true, { sys with disk := some [emptyPlaceholder] }) := by
  unfold rebuildGlobalStore
  rw [h]
  rfl

theorem joinActive_of_isEmpty (db : DB)
    (h : (getActiveDocumentChunks db).isEmpty = true) : joinActive db = [] := by
  have h1 : getActiveDocumentChunks db = [] := List.isEmpty_iff.mp h
  exact (insertionSort_eq_nil_iff LeDocVec _).mp h1

theorem activeChunks_of_isEmpty (db : DB) (hd : (db.docs.map (·.id)).Nodup)
    (h : (getActiveDocumentChunks db).isEmpty = true) : activeChunksOf db = [] := by
  rw [← joinActive_map_fst db hd, joinActive_of_isEmpty db h]
  rfl

theorem activeChunks_after_update (db : DB) (rows : List (ChunkRow × AdminDocument)) :
    activeChunksOf (updateChunkVectorIndices db rows)
      = (activeChunksOf db).map (assignPositions rows 0) := by
  calc activeChunksOf (updateChunkVectorIndices db rows)
      = (joinActiveUnique (updateChunkVectorIndices db rows)).map Prod.fst :=
        (joinActiveUnique_map_fst _).symm
    _ = ((joinActiveUnique db).map (fun p => (assignPositions rows 0 p.1, p.2))).map Prod.fst :=
        congrArg (List.map Prod.fst)
          (joinActiveUnique_update db (assignPositions rows 0)
            (fun c => assignPositions_is_active _ 0 c)
            (fun c => assignPositions_document_id _ 0 c))
    _ = ((joinActiveUnique db).map Prod.fst).map (assignPositions rows 0) := by
        rw [List.map_map, List.map_map]
        rfl
    _ = (activeChunksOf db).map (assignPositions rows 0) := by
        rw [joinActiveUnique_map_fst]

theorem sortByPos_after_update (db : DB) (hwfC : (db.chunks.map (·.id)).Nodup)
    (hwfD : (db.docs.map (·.id)).Nodup) :
    sortByPos (activeChunksOf (updateChunkVectorIndices db (getActiveDocumentChunks db)))
      = ((getActiveDocumentChunks db).map Prod.fst).mapIdx setVi := by
  have hAids : ((getActiveDocumentChunks db).map (fun p => p.1.id)).Nodup :=
    getActive_key_nodup db (·.id) hwfC hwfD
  have hact := activeChunks_after_update db (getActiveDocumentChunks db)
  have hpermA : ((getActiveDocumentChunks db).map Prod.fst).Perm (activeChunksOf db) := by
    rw [← joinActive_map_fst db hwfD]
    exact (List.perm_insertionSort LeDocVec (joinActive db)).map Prod.fst
  have hmapB : ((getActiveDocumentChunks db).map Prod.fst).map
      (assignPositions (getActiveDocumentChunks db) 0)
      = ((getActiveDocumentChunks db).map Prod.fst).mapIdx setVi := by
    refine List.ext_getElem (by rw [List.length_map, List.length_mapIdx]) ?_
    intro n h1 h2
    rw [List.getElem_map, List.getElem_mapIdx, List.getElem_map]
    have hlen : n < (getActiveDocumentChunks db).length := by
      rw [List.length_map, List.length_map] at h1
      exact h1
    have hget := assignPositions_getElem (getActiveDocumentChunks db) hAids 0 n hlen
    rw [hget, Nat.zero_add]
  have hperm2 : (activeChunksOf (updateChunkVectorIndices db (getActiveDocumentChunks db))).Perm
      (((getActiveDocumentChunks db).map Prod.fst).mapIdx setVi) := by
    rw [hact, ← hmapB]
    exact (hpermA.map _).symm
  have hsortB : List.Pairwise LtVec
      (((getActiveDocumentChunks db).map Prod.fst).mapIdx setVi) := by
    rw [List.pairwise_iff_getElem]
    intro i j hi hj hij
    rw [List.getElem_mapIdx, List.getElem_mapIdx]
    exact hij
  have hsorted : List.Pairwise LeVec
      (sortByPos (activeChunksOf (updateChunkVectorIndices db (getActiveDocumentChunks db)))) :=
    List.sorted_insertionSort LeVec _
  have hsnd : ((((getActiveDocumentChunks db).map Prod.fst).mapIdx setVi).map
      (fun c => c.vector_index)) = List.range ((getActiveDocumentChunks db).map Prod.fst).length := by
    refine List.ext_getElem (by rw [List.length_map, List.length_mapIdx, List.length_range]) ?_
    intro n h1 h2
    rw [List.getElem_map, List.getElem_mapIdx, List.getElem_range]
    rfl
  have hkeys : ((sortByPos (activeChunksOf
      (updateChunkVectorIndices db (getActiveDocumentChunks db)))).map
      (fun c => c.vector_index)).Nodup := by
    have hpall : (sortByPos (activeChunksOf
        (updateChunkVectorIndices db (getActiveDocumentChunks db)))).Perm
        (((getActiveDocumentChunks db).map Prod.fst).mapIdx setVi) :=
      (List.perm_insertionSort LeVec _).trans hperm2
    refine ((hpall.map (fun c => c.vector_index)).symm).nodup ?_
    rw [hsnd]
    exact List.nodup_range _
  have hstrict : List.Pairwise LtVec
      (sortByPos (activeChunksOf (updateChunkVectorIndices db (getActiveDocumentChunks db)))) :=
    pairwise_lt_of_le_nodup_vec _ hsorted hkeys
  exact List.eq_of_perm_of_sorted
    ((List.perm_insertionSort LeVec _).trans hperm2) hstrict hsortB

theorem rebuildEntry_not_placeholder (db : DB)
    (htag : ∀ c ∈ db.chunks, c.is_active = true →
      ¬(c.metadata.document = some "system" ∧ c.metadata.temporary = some true))
    {p : ChunkRow × AdminDocument} (hp : p ∈ getActiveDocumentChunks db) :
    isPlaceholder (rebuildEntry p) = false := by
  have hmem : p ∈ joinActive db :=
    (List.perm_insertionSort LeDocVec (joinActive db)).subset hp
  obtain ⟨hc, hact, _⟩ := mem_joinActive hmem
  have h := htag p.1 hc hact
  rw [Bool.eq_false_iff]
  intro htrue
  unfold isPlaceholder at htrue
  rw [Bool.and_eq_true] at htrue
  exact h ⟨beq_iff_eq.mp htrue.1, beq_iff_eq.mp htrue.2⟩

/-- C1: a successful rebuild restores the central consistency invariant:
it reports success, persists an index whose vector count — excluding the
placeholder — equals the active-chunk count of the resulting ledger, and
the active chunks ordered by their (new) vector positions correspond 1:1
and in order to the persisted vectors.  The hypothesis is well-formedness
of the active join only (unique primary keys plus ordering and tagging of
the rows the rebuild reads), so it covers states carrying stale inactive
rows from soft-delete/re-upload cycles. -/
theorem rebuild_restores_ledger_index_consistency (sys : Sys) (hwf : WFdb sys.db) :
    (rebuildGlobalStore sys true).1 = true ∧
    ∃ es, (rebuildGlobalStore sys true).2.disk = some es ∧
      getGlobalChunkCount (rebuildGlobalStore sys true).2.db = realVectorCount (some es) ∧
      (es.filter (fun e => !isPlaceholder e)).map entryData
        = (sortByPos (activeChunksOf (rebuildGlobalStore sys true).2.db)).map chunkData := by
  by_cases hE : (getActiveDocumentChunks sys.db).isEmpty = true
  · rw [rebuild_empty_eq sys hE]
    refine ⟨rfl, [emptyPlaceholder], rfl, ?_, ?_⟩
    · show getGlobalChunkCount sys.db = realVectorCount (some [emptyPlaceholder])
      unfold getGlobalChunkCount
      rw [joinActive_of_isEmpty sys.db hE]
      rfl
    · show ([emptyPlaceholder].filter (fun e => !isPlaceholder e)).map entryData
        = (sortByPos (activeChunksOf sys.db)).map chunkData
      rw [activeChunks_of_isEmpty sys.db hwf.docIdsNodup hE]
      rfl
  · have hE2 : (getActiveDocumentChunks sys.db).isEmpty = false := Bool.eq_false_iff.mpr hE
    rw [rebuild_nonempty_eq sys hE2]
    have hfself : ((getActiveDocumentChunks sys.db).map rebuildEntry).filter
        (fun e => !isPlaceholder e) = (getActiveDocumentChunks sys.db).map rebuildEntry := by
      refine List.filter_eq_self.mpr ?_
      intro e he
      obtain ⟨p, hp, hpe⟩ := List.mem_map.mp he
      rw [← hpe]
      rw [rebuildEntry_not_placeholder sys.db hwf.noSystemTag hp]
      rfl
    have hju2 : joinActive (updateChunkVectorIndices sys.db (getActiveDocumentChunks sys.db))
        = (joinActive sys.db).map
            (fun p => (assignPositions (getActiveDocumentChunks sys.db) 0 p.1, p.2)) := by
      calc joinActive (updateChunkVectorIndices sys.db (getActiveDocumentChunks sys.db))
          = joinActiveUnique (updateChunkVectorIndices sys.db (getActiveDocumentChunks sys.db)) :=
            joinActive_eq_unique _ hwf.docIdsNodup
        _ = (joinActiveUnique sys.db).map
              (fun p => (assignPositions (getActiveDocumentChunks sys.db) 0 p.1, p.2)) :=
            joinActiveUnique_update sys.db _
              (fun c => assignPositions_is_active _ 0 c)
              (fun c => assignPositions_document_id _ 0 c)
        _ = (joinActive sys.db).map
              (fun p => (assignPositions (getActiveDocumentChunks sys.db) 0 p.1, p.2)) := by
            rw [joinActive_eq_unique sys.db hwf.docIdsNodup]
    refine ⟨rfl, (getActiveDocumentChunks sys.db).map rebuildEntry, rfl, ?_, ?_⟩
    · show getGlobalChunkCount (updateChunkVectorIndices sys.db (getActiveDocumentChunks sys.db))
        = ((((getActiveDocumentChunks sys.db).map rebuildEntry)).filter
            (fun e => !isPlaceholder e)).length
      unfold getGlobalChunkCount
      rw [hju2, hfself]
      rw [List.length_map, List.length_map]
      exact ((List.perm_insertionSort LeDocVec (joinActive sys.db)).length_eq).symm
    · show (((getActiveDocumentChunks sys.db).map rebuildEntry).filter
          (fun e => !isPlaceholder e)).map entryData
        = (sortByPos (activeChunksOf
            (updateChunkVectorIndices sys.db (getActiveDocumentChunks sys.db)))).map chunkData
      rw [hfself]
      rw [sortByPos_after_update sys.db hwf.chunkIdsNodup hwf.docIdsNodup]
      refine List.ext_getElem (by simp) ?_
      intro n h1 h2
      rw [List.getElem_map, List.getElem_map, List.getElem_map, List.getElem_mapIdx, List.getElem_map]
      rfl



theorem perm_joinActive_key_nodup {κ : Type} (db : DB) (key : ChunkRow → κ)
    (l : List (ChunkRow × AdminDocument)) (hperm : l.Perm (joinActive db))
    (hc : ((activeChunksOf db).map key).Nodup) (hd : (db.docs.map (·.id)).Nodup) :
    (l.map (fun p => key p.1)).Nodup := by
  have hJ : (joinActive db).map (fun p => key p.1) = (activeChunksOf db).map key := by
    rw [show (fun p : ChunkRow × AdminDocument => key p.1) = key ∘ Prod.fst from rfl]
    rw [← List.map_map, joinActive_map_fst db hd]
  have hjn : ((joinActive db).map (fun p => key p.1)).Nodup := by
    rw [hJ]
    exact hc
  exact ((hperm.map (fun p => key p.1)).symm).nodup hjn

theorem getActive_eq_sort_by_chunk_index (db : DB) (hwf : WFdb db) :
    getActiveDocumentChunks db = (joinActive db).insertionSort LeDocChunk := by
  have hp1 : (getActiveDocumentChunks db).Perm (joinActive db) :=
    List.perm_insertionSort _ _
  have hp2 : ((joinActive db).insertionSort LeDocChunk).Perm (joinActive db) :=
    List.perm_insertionSort _ _
  have hnd1 : ((getActiveDocumentChunks db).map
      (fun p => (p.1.document_id, p.1.vector_index))).Nodup :=
    perm_joinActive_key_nodup db _ _ hp1 (wf_docvec_nodup db hwf) hwf.docIdsNodup
  have hndci1 : ((getActiveDocumentChunks db).map
      (fun p => (p.1.document_id, p.1.chunk_index))).Nodup :=
    perm_joinActive_key_nodup db _ _ hp1 hwf.docChunkNodup hwf.docIdsNodup
  have hnd2 : (((joinActive db).insertionSort LeDocChunk).map
      (fun p => (p.1.document_id, p.1.chunk_index))).Nodup :=
    perm_joinActive_key_nodup db _ _ hp2 hwf.docChunkNodup hwf.docIdsNodup
  have hs2 : List.Pairwise LtDocChunk ((joinActive db).insertionSort LeDocChunk) :=
    pairwise_lt_of_le_nodup_docchunk _ (List.sorted_insertionSort _ _) hnd2
  have hs1v : List.Pairwise LtDocVec (getActiveDocumentChunks db) :=
    pairwise_lt_of_le_nodup_docvec _ (List.sorted_insertionSort _ _) hnd1
  have hs1ne : List.Pairwise (fun a b : ChunkRow × AdminDocument =>
      (a.1.document_id, a.1.chunk_index) ≠ (b.1.document_id, b.1.chunk_index))
      (getActiveDocumentChunks db) := List.pairwise_map.mp hndci1
  have hs1 : List.Pairwise LtDocChunk (getActiveDocumentChunks db) := by
    refine (hs1v.and hs1ne).imp_of_mem ?_
    intro a b ha hb hab
    obtain ⟨hvab, hne⟩ := hab
    have hca : a.1 ∈ activeChunksOf db := mem_active_of_joinActive (hp1.subset ha)
    have hcb : b.1 ∈ activeChunksOf db := mem_active_of_joinActive (hp1.subset hb)
    unfold LtDocVec at hvab
    unfold LtDocChunk
    rcases hvab with h | ⟨hd2, hv⟩
    · exact Or.inl h
    · refine Or.inr ⟨hd2, ?_⟩
      rcases Nat.lt_trichotomy a.1.chunk_index b.1.chunk_index with h | h | h
      · exact h
      · exact absurd (by rw [hd2, h]) hne
      · have := hwf.monoVec b.1 hcb a.1 hca hd2.symm h
        omega
  exact List.eq_of_perm_of_sorted (hp1.trans hp2.symm) hs1 hs2

theorem mapIdx_setVi_positions (l : List ChunkRow) :
    ((l.mapIdx setVi).map (·.vector_index)) = List.range l.length := by
  refine List.ext_getElem (by simp) ?_
  intro n h1 h2
  rw [List.getElem_map, List.getElem_mapIdx, List.getElem_range]
  rfl

theorem mapIdx_setVi_pair_ids (A : List (ChunkRow × AdminDocument)) :
    (A.mapIdx (fun i p => (setVi i p.1, p.2))).map (fun p => p.1.id)
      = A.map (fun p => p.1.id) := by
  refine List.ext_getElem (by simp) ?_
  intro n h1 h2
  rw [List.getElem_map, List.getElem_map, List.getElem_mapIdx]
  rfl

theorem assign_absorb (db : DB) (hwfC : (db.chunks.map (·.id)).Nodup)
    (hwfD : (db.docs.map (·.id)).Nodup) :
    (db.chunks.map (assignPositions (getActiveDocumentChunks db) 0)).map
      (assignPositions ((getActiveDocumentChunks db).mapIdx (fun i p => (setVi i p.1, p.2))) 0)
      = db.chunks.map (assignPositions (getActiveDocumentChunks db) 0) := by
  have hAids : ((getActiveDocumentChunks db).map (fun p => p.1.id)).Nodup :=
    getActive_key_nodup db (·.id) hwfC hwfD
  have hA2ids : (((getActiveDocumentChunks db).mapIdx
      (fun i p => (setVi i p.1, p.2))).map (fun p => p.1.id)).Nodup := by
    rw [mapIdx_setVi_pair_ids]
    exact hAids
  rw [List.map_map]
  refine List.map_congr_left ?_
  intro c hc
  show assignPositions ((getActiveDocumentChunks db).mapIdx (fun i p => (setVi i p.1, p.2))) 0
      (assignPositions (getActiveDocumentChunks db) 0 c)
    = assignPositions (getActiveDocumentChunks db) 0 c
  by_cases hmem : c.id ∈ (getActiveDocumentChunks db).map (fun p => p.1.id)
  · obtain ⟨n, hn, hid⟩ := List.mem_iff_getElem.mp hmem
    have hnA : n < (getActiveDocumentChunks db).length := by
      rw [List.length_map] at hn
      exact hn
    rw [List.getElem_map] at hid
    have hAmem : ((getActiveDocumentChunks db)[n]).1 ∈ db.chunks :=
      (mem_joinActive ((List.perm_insertionSort LeDocVec (joinActive db)).subset
        (List.getElem_mem hnA))).1
    have hceq : c = ((getActiveDocumentChunks db)[n]).1 :=
      (List.inj_on_of_nodup_map hwfC hAmem hc hid).symm
    rw [hceq]
    rw [assignPositions_getElem (getActiveDocumentChunks db) hAids 0 n hnA, Nat.zero_add]
    have hA2n : n < ((getActiveDocumentChunks db).mapIdx
        (fun i p => (setVi i p.1, p.2))).length := by
      rw [List.length_mapIdx]
      exact hnA
    have hstep := assignPositions_getElem ((getActiveDocumentChunks db).mapIdx
        (fun i p => (setVi i p.1, p.2))) hA2ids 0 n hA2n
    rw [List.getElem_mapIdx] at hstep
    rw [Nat.zero_add] at hstep
    exact hstep
  · have h1 : assignPositions (getActiveDocumentChunks db) 0 c = c :=
      assignPositions_not_mem _ 0 c (by
        intro p hp he
        exact hmem (he ▸ List.mem_map_of_mem (fun p => p.1.id) hp))
    rw [h1]
    refine assignPositions_not_mem _ 0 c ?_
    intro p hp he
    apply hmem
    have hmem2 : p.1.id ∈ ((getActiveDocumentChunks db).mapIdx
        (fun i p => (setVi i p.1, p.2))).map (fun q => q.1.id) :=
      List.mem_map_of_mem _ hp
    rw [mapIdx_setVi_pair_ids] at hmem2
    exact he ▸ hmem2

theorem update_eq_self_of_chunks (db : DB) (rows : List (ChunkRow × AdminDocument))
    (h : db.chunks.map (assignPositions rows 0) = db.chunks) :
    updateChunkVectorIndices db rows = db := by
  unfold updateChunkVectorIndices
  rw [h]

/-- C2: the rebuild enumeration coincides with sorting the active join by
(document_id, chunk_index); after a rebuild the surviving active rows
ordered by their vector positions are exactly the enumeration renumbered
0..N-1 (a contiguous range); and rebuilding again is a no-op on ledger
and index — the enumeration is stable across repeated rebuilds.  The
ordinal hypotheses quantify over the active join only, so states whose
soft-deleted documents left stale inactive duplicate rows behind are
covered. -/
theorem rebuild_order_deterministic (sys : Sys) (hwf : WFdb sys.db) :
    getActiveDocumentChunks sys.db = (joinActive sys.db).insertionSort LeDocChunk ∧
    sortByPos (activeChunksOf (rebuildGlobalStore sys true).2.db)
      = ((getActiveDocumentChunks sys.db).map Prod.fst).mapIdx setVi ∧
    (sortByPos (activeChunksOf (rebuildGlobalStore sys true).2.db)).map (·.vector_index)
      = List.range (getActiveDocumentChunks sys.db).length ∧
    rebuildGlobalStore (rebuildGlobalStore sys true).2 true
      = (true, (rebuildGlobalStore sys true).2) := by
  have hsort2 : sortByPos (activeChunksOf (rebuildGlobalStore sys true).2.db)
      = ((getActiveDocumentChunks sys.db).map Prod.fst).mapIdx setVi := by
    by_cases hE : (getActiveDocumentChunks sys.db).isEmpty = true
    · rw [rebuild_empty_eq sys hE]
      have hA : getActiveDocumentChunks sys.db = [] := List.isEmpty_iff.mp hE
      rw [hA]
      show sortByPos (activeChunksOf sys.db) = []
      rw [activeChunks_of_isEmpty sys.db hwf.docIdsNodup hE]
      rfl
    · have hE2 : (getActiveDocumentChunks sys.db).isEmpty = false := Bool.eq_false_iff.mpr hE
      rw [rebuild_nonempty_eq sys hE2]
      exact sortByPos_after_update sys.db hwf.chunkIdsNodup hwf.docIdsNodup
  refine ⟨getActive_eq_sort_by_chunk_index sys.db hwf, hsort2, ?_, ?_⟩
  · rw [hsort2, mapIdx_setVi_positions, List.length_map]
  · by_cases hE : (getActiveDocumentChunks sys.db).isEmpty = true
    · rw [rebuild_empty_eq sys hE]
      dsimp only
      rw [rebuild_empty_eq { db := sys.db, disk := some [emptyPlaceholder] } hE]
    · have hE2 : (getActiveDocumentChunks sys.db).isEmpty = false := Bool.eq_false_iff.mpr hE
      rw [rebuild_nonempty_eq sys hE2]
      have hup := getActive_after_update sys.db hwf.chunkIdsNodup hwf.docIdsNodup
      have hlen2 : (getActiveDocumentChunks (updateChunkVectorIndices sys.db
          (getActiveDocumentChunks sys.db))).isEmpty = false := by
        rw [hup]
        cases hl : (getActiveDocumentChunks sys.db).mapIdx (fun i p => (setVi i p.1, p.2)) with
        | nil =>
            exfalso
            have hlen0 : (getActiveDocumentChunks sys.db).length = 0 := by
              have hc := congrArg List.length hl
              rw [List.length_mapIdx] at hc
              simpa using hc
            have hA : getActiveDocumentChunks sys.db = [] := List.length_eq_zero.mp hlen0
            rw [hA] at hE
            exact hE rfl
        | cons x xs => rfl
      dsimp only
      rw [rebuild_nonempty_eq
        { db := updateChunkVectorIndices sys.db (getActiveDocumentChunks sys.db)
          disk := some ((getActiveDocumentChunks sys.db).map rebuildEntry) } hlen2]
      dsimp only
      rw [hup]
      refine congrArg (Prod.mk true) ?_
      rw [Sys.mk.injEq]
      constructor
      · exact update_eq_self_of_chunks _ _
          (assign_absorb sys.db hwf.chunkIdsNodup hwf.docIdsNodup)
      · refine congrArg some ?_
        refine List.ext_getElem (by rw [List.length_map, List.length_mapIdx, List.length_map]) ?_
        intro n h1 h2
        rw [List.getElem_map, List.getElem_map, List.getElem_mapIdx]
        rfl



theorem extractSourcesAux_prefix :
    ∀ (docs : List GEntry) (sources : List SourceInfo) (seen : List String),
      ∃ t, extractSourcesAux docs sources seen = sources ++ t := by
  intro docs
  induction docs with
  | nil =>
      intro sources seen
      exact ⟨[], by simp [extractSourcesAux]⟩
  | cons d rest ih =>
      intro sources seen
      simp only [extractSourcesAux]
      by_cases hm : (d.metadata == emptyMeta) = true
      · rw [if_pos hm]
        exact ih sources seen
      · rw [if_neg hm]
        by_cases hs : (seen.contains (sourceKey (sourceInfoOf d.metadata))) = true
        · rw [if_pos hs]
          exact ih sources seen
        · rw [if_neg hs]
          obtain ⟨t, ht⟩ := ih (sources ++ [sourceInfoOf d.metadata])
            (seen ++ [sourceKey (sourceInfoOf d.metadata)])
          refine ⟨sourceInfoOf d.metadata :: t, ?_⟩
          rw [ht, List.append_assoc]
          rfl

/-- C9 (amended): the placeholder is never excluded by metadata filtering
on the query path — no such filter exists.  What does hold: a successful
rebuild over a non-empty active set writes an index that contains no
placeholder-tagged vector at all, so the placeholder cannot be retrieved
from it; while whenever retrieval does return the placeholder (e.g. from
a placeholder-only store, which the loader happily serves), citation
extraction surfaces it as an "Unknown Document" citation. -/
theorem placeholder_tagged_but_not_filtered (sys : Sys) (hwf : WFdb sys.db)
    (hne : (getActiveDocumentChunks sys.db).isEmpty = false) :
    (∃ es, (rebuildGlobalStore sys true).2.disk = some es ∧
      ∀ e ∈ es, isPlaceholder e = false) ∧
    ∀ docs : List GEntry,
      (extractSources (emptyPlaceholder :: docs)).head? =
        some { document := "Unknown Document", page := .unknownPage, chunk_index := 1 } := by
  constructor
  · rw [rebuild_nonempty_eq sys hne]
    refine ⟨(getActiveDocumentChunks sys.db).map rebuildEntry, rfl, ?_⟩
    intro e he
    obtain ⟨p, hp, hpe⟩ := List.mem_map.mp he
    rw [← hpe]
    exact rebuildEntry_not_placeholder sys.db hwf.noSystemTag hp
  · intro docs
    obtain ⟨t, ht⟩ := extractSourcesAux_prefix docs
      [{ document := "Unknown Document", page := .unknownPage, chunk_index := 1 }]
      ["Unknown Document-Unknown Page"]
    have hstep : extractSources (emptyPlaceholder :: docs)
        = extractSourcesAux docs
            [{ document := "Unknown Document", page := .unknownPage, chunk_index := 1 }]
            ["Unknown Document-Unknown Page"] := by
      show extractSourcesAux (emptyPlaceholder :: docs) [] [] = _
      simp only [extractSourcesAux]
      rw [if_neg (by decide), if_neg (by decide)]
      rfl
    rw [hstep, ht]
    rfl

/-- Witness for C1 at the re-uploaded state whose table holds stale
inactive duplicate rows: the active join is well-formed there even though
the whole table is not. -/
theorem rebuild_consistency_witness :
    (rebuildGlobalStore staleDupSys true).1 = true :=
  (rebuild_restores_ledger_index_consistency staleDupSys
    ⟨by decide, by decide, by decide, by decide, by decide⟩).1

/-- Witness for C2 at the re-uploaded state whose table holds stale
inactive duplicate rows. -/
theorem rebuild_order_witness :
    getActiveDocumentChunks staleDupSys.db
      = (joinActive staleDupSys.db).insertionSort LeDocChunk :=
  (rebuild_order_deterministic staleDupSys
    ⟨by decide, by decide, by decide, by decide, by decide⟩).1

/-- Witness for the amended C9 at the concrete two-chunk state. -/
theorem placeholder_not_filtered_witness :
    (extractSources [emptyPlaceholder]).head? =
      some { document := "Unknown Document", page := .unknownPage, chunk_index := 1 } :=
  (placeholder_tagged_but_not_filtered demoSys2
    ⟨by decide, by decide, by decide, by decide, by decide⟩ (by decide)).2 []

end VitBot
